import Mathlib

/- Verification of the AutoConvert extraction-and-reconciliation pipeline.

   Shallow embedding of the Python modules
     src/autoconvert/weight_alloc.py   (weight allocation, FR-021 .. FR-026)
     src/autoconvert/column_map.py     (header detection, FR-007)
     src/autoconvert/merge_tracker.py  (merged-cell snapshot, FR-010)
     src/autoconvert/transform.py      (currency / country conversion, FR-018/019)

   Python `Decimal` values are modelled as rationals (ℚ): all Decimal
   arithmetic appearing in these modules (+, -, *, comparison, quantize)
   is exact at the magnitudes involved, so ℚ is a faithful carrier; the
   one division (`item.qty / total_qty`) is modelled as exact rational
   division, and the `decimal.DivisionByZero` signal Python would raise
   on a zero divisor is modelled as an explicit error case.
   Python dicts (insertion-ordered, string keys) are modelled as
   association lists with distinct keys kept in insertion order. -/

namespace AutoConvert

/-- Python str.strip whitespace (the ASCII whitespace characters; the
    inputs involved contain no exotic unicode spacing). -/
def isPySpace (c : Char) : Bool :=
  decide (c = ' ') || decide (c = '\t') || decide (c = '\n') ||
  decide (c = '\r') || decide (c = '\x0b') || decide (c = '\x0c')

/-- Python str.strip: drop leading and trailing whitespace. -/
def pyStrip (s : String) : String :=
  String.mk (((s.toList.dropWhile isPySpace).reverse.dropWhile isPySpace).reverse)

/-- Mirrors utils.round_half_up: Decimal quantize with ROUND_HALF_UP,
    i.e. round to `d` decimal places, ties away from zero. -/
def round_half_up (x : ℚ) (d : Nat) : ℚ :=
  if 0 ≤ x then (⌊x * 10 ^ d + 1 / 2⌋ : ℚ) / 10 ^ d
  else -((⌊-x * 10 ^ d + 1 / 2⌋ : ℚ) / 10 ^ d)

/-- Mirrors models.InvoiceItem (models.py lines 20-58). -/
structure InvoiceItem where
  part_no : String
  po_no : String
  qty : ℚ
  price : ℚ
  amount : ℚ
  currency : String
  coo : String
  cod : Option String
  brand : String
  brand_type : String
  model : String
  inv_no : Option String
  serial : Option String
  allocated_weight : Option ℚ
deriving DecidableEq, Repr

/-- Mirrors models.PackingItem (models.py lines 61-83). -/
structure PackingItem where
  part_no : String
  qty : ℚ
  nw : ℚ
  is_first_row_of_merge : Bool
  row_number : Nat
deriving DecidableEq, Repr

/-- Mirrors models.PackingTotals (models.py lines 86-107). -/
structure PackingTotals where
  total_nw : ℚ
  total_nw_precision : Nat
  total_gw : ℚ
  total_gw_precision : Nat
  total_packets : Option Nat
deriving DecidableEq, Repr

/-- The ProcessingError codes (with their message payloads) that
    weight_alloc.py can raise, plus the uncaught decimal.DivisionByZero
    that `item.qty / total_qty` raises when a matched multi-line part
    group has total quantity zero. -/
inductive AllocError where
  | aggregatedWeightNonPositive (part : String)    -- ERR_042
  | aggregatedQtyNonPositive (part : String)       -- ERR_045
  | packingSumMismatch                             -- ERR_047
  | weightRoundsToZero (part : String)             -- ERR_044
  | negativeRemainder                              -- ERR_041
  | invoicePartsUnmatched (parts : List String)    -- ERR_040
  | packingPartsUnmatched (parts : List String)    -- ERR_043
  | finalSumMismatch                               -- ERR_048
  | qtyDivisionByZero (part : String)              -- decimal.DivisionByZero
deriving DecidableEq, Repr

/-- One step of `agg[key] = agg.get(key, 0) + v` on an insertion-ordered
    dict modelled as an association list: update in place if the key is
    present, append otherwise. -/
def dictAdd (m : List (String × ℚ)) (k : String) (v : ℚ) : List (String × ℚ) :=
  if m.any (fun kv => kv.1 = k) then
    m.map (fun kv => if kv.1 = k then (kv.1, kv.2 + v) else kv)
  else m ++ [(k, v)]

/-- Mirrors weight_alloc._aggregate_packing (FR-021): group packing rows
    by stripped part_no, summing nw and qty; then validate every
    aggregated weight and quantity is positive (ERR_042 / ERR_045). -/
def aggregate_packing (packing_items : List PackingItem) :
    Except AllocError (List (String × ℚ) × List (String × ℚ)) :=
  let agg_nw := packing_items.foldl (fun m it => dictAdd m (pyStrip it.part_no) it.nw) []
  let agg_qty := packing_items.foldl (fun m it => dictAdd m (pyStrip it.part_no) it.qty) []
  match agg_nw.find? (fun kv => decide (kv.2 ≤ 0)) with
  | some kv => .error (.aggregatedWeightNonPositive kv.1)
  | none =>
    match agg_qty.find? (fun kv => decide (kv.2 ≤ 0)) with
    | some kv => .error (.aggregatedQtyNonPositive kv.1)
    | none => .ok (agg_nw, agg_qty)

/-- Mirrors weight_alloc._validate_packing_sum (FR-022): ERR_047 when
    the absolute difference between the unrounded aggregated sum and
    total_nw exceeds the fixed threshold Decimal 0.1. -/
def validate_packing_sum (agg_nw : List (String × ℚ)) (total_nw : ℚ) :
    Except AllocError Unit :=
  let packing_sum := (agg_nw.map (fun kv => kv.2)).sum
  let difference := |packing_sum - total_nw|
  if difference > 1 / 10 then .error .packingSumMismatch else .ok ()

/-- The while-loop of weight_alloc._zero_check_escalation, with the fuel
    `6 - current` making the `current <= 5` bound structural: find the
    first part whose weight rounds to zero at the current precision;
    escalate until none does, ERR_044 if one still does at 5. -/
def zeroCheckLoop (agg_nw : List (String × ℚ)) : Nat → Nat → Except AllocError Nat
  | 0, current => .ok current
  | fuel + 1, current =>
    match agg_nw.find? (fun kv => decide (round_half_up kv.2 current = 0)) with
    | none => .ok current
    | some kv =>
      if current = 5 then .error (.weightRoundsToZero kv.1)
      else zeroCheckLoop agg_nw fuel (current + 1)

/-- Mirrors weight_alloc._zero_check_escalation (FR-023 step 3). -/
def zero_check_escalation (precision : Nat) (agg_nw : List (String × ℚ)) :
    Except AllocError Nat :=
  zeroCheckLoop agg_nw (6 - precision) precision

/-- Mirrors weight_alloc._determine_precision (FR-023): clamp the
    detected precision to [2,5], try N then N+1 by sum matching, then
    run the zero-check escalation from the chosen precision. -/
def determine_precision (total_nw : ℚ) (total_nw_precision : Nat)
    (agg_nw : List (String × ℚ)) : Except AllocError Nat :=
  let base_n := max 2 (min total_nw_precision 5)
  let weights := agg_nw.map (fun kv => kv.2)
  let rounded_sum_n := (weights.map (fun w => round_half_up w base_n)).sum
  let precision :=
    if rounded_sum_n = total_nw then base_n
    else min (base_n + 1) 5
  zero_check_escalation precision agg_nw

/-- The sum-matching step of _determine_precision in isolation (lines
    181-214 of weight_alloc.py): the precision value handed to the
    zero-check escalation. -/
def chosenPrecision (total_nw : ℚ) (total_nw_precision : Nat)
    (agg_nw : List (String × ℚ)) : Nat :=
  if (agg_nw.map
      (fun kv => round_half_up kv.2 (max 2 (min total_nw_precision 5)))).sum =
      total_nw
  then max 2 (min total_nw_precision 5)
  else min (max 2 (min total_nw_precision 5) + 1) 5

/-- Some aggregated part weight rounds to exactly zero at precision p. -/
def hasZeroAt (agg_nw : List (String × ℚ)) (p : Nat) : Prop :=
  ∃ kv ∈ agg_nw, round_half_up kv.2 p = 0

/-- Mirrors weight_alloc._round_and_adjust (FR-024): round every part
    weight to the optimal precision, then overwrite the last part with
    the remainder total_nw - (sum of the others); ERR_041 when that
    remainder is negative. -/
def round_and_adjust (agg_nw : List (String × ℚ)) (optimal_precision : Nat)
    (total_nw : ℚ) : Except AllocError (List (String × ℚ)) :=
  let rounded := agg_nw.map (fun kv => (kv.1, round_half_up kv.2 optimal_precision))
  match agg_nw.getLast? with
  | none => .ok rounded
  | some lastkv =>
    let last_part := lastkv.1
    let sum_others :=
      ((rounded.filter (fun kv => decide (kv.1 ≠ last_part))).map (fun kv => kv.2)).sum
    let remainder := total_nw - sum_others
    if remainder < 0 then .error .negativeRemainder
    else .ok (rounded.map (fun kv => if kv.1 = last_part then (kv.1, remainder) else kv))

/-- One step of `invoice_by_part.setdefault(key, []).append(idx)`. -/
def groupAdd (m : List (String × List Nat)) (k : String) (i : Nat) :
    List (String × List Nat) :=
  if m.any (fun kv => kv.1 = k) then
    m.map (fun kv => if kv.1 = k then (kv.1, kv.2 ++ [i]) else kv)
  else m ++ [(k, [i])]

/-- The `invoice_by_part` lookup of weight_alloc._proportional_allocate:
    stripped invoice part_no to the list of invoice item indices. -/
def invoiceByPart (invoice_items : List InvoiceItem) : List (String × List Nat) :=
  invoice_items.enum.foldl (fun m p => groupAdd m (pyStrip p.2.part_no) p.1) []

/-- Set allocated_weight of the item at index idx (no-op out of range),
    modelling `item.allocated_weight = w` on the mutable item list. -/
def setWeight (items : List InvoiceItem) (idx : Nat) (w : ℚ) : List InvoiceItem :=
  match items.get? idx with
  | some it => items.set idx { it with allocated_weight := some w }
  | none => items

/-- The inner per-part loop of weight_alloc._proportional_allocate
    (lines 368-379): every index except the last gets the proportional
    share round_half_up(part_weight * qty / total_qty, line_precision),
    accumulated in acc; the last index absorbs part_weight - acc. -/
def allocGroupGo (total_qty part_weight : ℚ) (line_precision : Nat) :
    List Nat → List InvoiceItem → ℚ → List InvoiceItem
  | [], items, _ => items
  | [idx], items, acc => setWeight items idx (part_weight - acc)
  | idx :: j :: rest, items, acc =>
    let q := match items.get? idx with
      | some it => it.qty
      | none => 0
    let alloc := round_half_up (part_weight * (q / total_qty)) line_precision
    allocGroupGo total_qty part_weight line_precision (j :: rest)
      (setWeight items idx alloc) (acc + alloc)

/-- The outer loop of weight_alloc._proportional_allocate over the
    rounded packing weights: unmatched packing parts are collected in
    err_043_parts; a matched part group is allocated by allocGroupGo.
    A matched group of two or more lines whose quantities sum to zero
    raises decimal.DivisionByZero in the Python source. -/
def allocLoop (ibp : List (String × List Nat)) (line_precision : Nat) :
    List (String × ℚ) → List InvoiceItem → List String →
    Except AllocError (List InvoiceItem × List String)
  | [], items, err043 => .ok (items, err043)
  | (part, part_weight) :: rest, items, err043 =>
    match ibp.find? (fun kv => kv.1 = part) with
    | none => allocLoop ibp line_precision rest items (err043 ++ [part])
    | some g =>
      let matching := g.2.filterMap (fun i => items.get? i)
      let total_qty := (matching.map (fun it => it.qty)).sum
      if 2 ≤ g.2.length ∧ total_qty = 0 then .error (.qtyDivisionByZero part)
      else
        allocLoop ibp line_precision rest
          (allocGroupGo total_qty part_weight line_precision g.2 items 0) err043

/-- Mirrors weight_alloc._proportional_allocate (FR-025): allocate per
    part group at precision optimal_precision + 1, then collect-then-report
    ERR_040 (invoice parts not in packing, checked first) and ERR_043
    (packing parts not in invoice). -/
def proportional_allocate (rounded_weights : List (String × ℚ))
    (invoice_items : List InvoiceItem) (optimal_precision : Nat) :
    Except AllocError (List InvoiceItem) := do
  let line_precision := optimal_precision + 1
  let ibp := invoiceByPart invoice_items
  let r ← allocLoop ibp line_precision rounded_weights invoice_items []
  let err040 :=
    (ibp.map (fun kv => kv.1)).filter
      (fun k => !(rounded_weights.any (fun kv => kv.1 = k)))
  if err040 ≠ [] then .error (.invoicePartsUnmatched err040)
  else if r.2 ≠ [] then .error (.packingPartsUnmatched r.2)
  else .ok r.1

/-- Mirrors weight_alloc._validate_final_sum (FR-026): ERR_048 when the
    sum of the populated allocated weights differs from total_nw. -/
def validate_final_sum (items : List InvoiceItem) (total_nw : ℚ) :
    Except AllocError Unit :=
  let allocated_sum := (items.filterMap (fun it => it.allocated_weight)).sum
  if allocated_sum ≠ total_nw then .error .finalSumMismatch else .ok ()

/-- Lines 44-63 of weight_alloc.allocate_weights: the pipeline up to and
    including proportional allocation, before the final sum validation. -/
def allocateNoFinal (invoice_items : List InvoiceItem)
    (packing_items : List PackingItem) (packing_totals : PackingTotals) :
    Except AllocError (List InvoiceItem) := do
  let total_nw := packing_totals.total_nw
  let agg ← aggregate_packing packing_items
  validate_packing_sum agg.1 total_nw
  let optimal_precision ←
    determine_precision total_nw packing_totals.total_nw_precision agg.1
  let rounded_weights ← round_and_adjust agg.1 optimal_precision total_nw
  proportional_allocate rounded_weights invoice_items optimal_precision

/-- Mirrors weight_alloc.allocate_weights (FR-021 .. FR-026). -/
def allocate_weights (invoice_items : List InvoiceItem)
    (packing_items : List PackingItem) (packing_totals : PackingTotals) :
    Except AllocError (List InvoiceItem) := do
  let result ← allocateNoFinal invoice_items packing_items packing_totals
  validate_final_sum result packing_totals.total_nw
  return result

/- ------------------------------------------------------------------ -/
/- column_map.py: header row detection (FR-007)                        -/
/- ------------------------------------------------------------------ -/

/-- A worksheet, modelled as 1-based cell access returning the cell
    value already rendered as a string (str(raw)), or none for an empty
    cell, as used by column_map._collect_row_cells. -/
structure Sheet where
  cells : Nat → Nat → Option String

/-- The header keywords of column_map._HEADER_KEYWORDS. -/
def headerKeywords : List String :=
  ["qty", "n.w.", "g.w.", "part no", "amount", "price", "quantity",
   "weight", "品牌", "料号", "数量", "单价", "金额", "净重", "毛重",
   "原产", "country", "origin", "brand", "model", "description",
   "unit", "currency", "coo"]

/-- The metadata marker substrings of column_map._METADATA_MARKERS. -/
def metadataMarkers : List String :=
  ["Tel:", "Fax:", "Cust ID:", "Contact:", "Address:"]

/-- Substring test: needle occurs contiguously in hay (Python `in`). -/
def hasSub (hay needle : String) : Bool :=
  (List.range (hay.toList.length + 1)).any
    (fun i => needle.toList.isPrefixOf (hay.toList.drop i))

/-- ASCII lowercasing, modelling str.lower on the inputs involved. -/
def pyLower (s : String) : String :=
  String.mk (s.toList.map Char.toLower)

/-- Mirrors column_map._NUMERIC_RE first alternative [\d]+\.?[\d]*
    anchored at both ends (digits modelled as ASCII digits). -/
def numericAltOne (cs : List Char) : Bool :=
  let ds := cs.takeWhile Char.isDigit
  let rest := cs.dropWhile Char.isDigit
  decide (ds ≠ []) &&
    (decide (rest = []) ||
      (decide (rest.head? = some '.') && rest.tail.all Char.isDigit))

/-- A character of the class [A-Za-z0-9-]. -/
def isCodeChar (c : Char) : Bool :=
  c.isAlpha || c.isDigit || decide (c = '-')

/-- Mirrors column_map._NUMERIC_RE second alternative, an anchored
    [A-Za-z0-9-]+ with a lookahead requiring at least one digit. -/
def numericAltTwo (cs : List Char) : Bool :=
  decide (cs ≠ []) && cs.all isCodeChar && cs.any Char.isDigit

/-- A cell matching column_map._NUMERIC_RE (numeric-looking). -/
def isNumericCell (s : String) : Bool :=
  numericAltOne s.toList || numericAltTwo s.toList

/-- Mirrors column_map._collect_row_cells: the stripped non-empty cell
    strings of columns 1..max_cols of a row. -/
def collectRowCells (sheet : Sheet) (row : Nat) (max_cols : Nat) : List String :=
  (List.range' 1 max_cols).filterMap (fun col =>
    match sheet.cells row col with
    | none => none
    | some raw =>
      let text := pyStrip raw
      if text = "" then none else some text)

/-- Mirrors column_map._has_metadata_markers. -/
def hasMetadataMarkers (cells : List String) : Bool :=
  cells.any (fun c => metadataMarkers.any (fun marker => hasSub c marker))

/-- Mirrors column_map._count_numeric_cells. -/
def countNumericCells (cells : List String) : Nat :=
  (cells.filter isNumericCell).length

/-- Mirrors column_map._has_header_keywords. -/
def hasHeaderKeywords (cells : List String) : Bool :=
  cells.any (fun c => headerKeywords.any (fun kw => hasSub (pyLower c) kw))

/-- The filtered cell list of a row in detect_header_row: collected
    cells of columns 1..13 without the "Unnamed:" artifacts. -/
def headerRowCells (sheet : Sheet) (row : Nat) : List String :=
  (collectRowCells sheet row 13).filter (fun c => !(("Unnamed:").toList.isPrefixOf c.toList))

/-- The tier of a (qualifying) row in detect_header_row: 0 when it has
    a header keyword and fewer than 2 numeric cells, else 2 when it has
    a metadata marker or at least 3 numeric cells, else 1. -/
def rowTier (cells : List String) : Nat :=
  if hasHeaderKeywords cells ∧ countNumericCells cells < 2 then 0
  else if hasMetadataMarkers cells ∨ 3 ≤ countNumericCells cells then 2
  else 1

/-- Header detection configuration: the two minimum-header thresholds
    from AppConfig. -/
structure HeaderConfig where
  invoice_min_headers : Nat
  packing_min_headers : Nat

/-- The errors detect_header_row can raise. -/
inductive HeaderError where
  | headerNotFound    -- ERR_014
deriving DecidableEq, Repr

/-- One step of the scan loop of detect_header_row over the state
    (best_tier, best_row). -/
def headerScanStep (sheet : Sheet) (threshold : Nat)
    (st : Nat × Option Nat) (row : Nat) : Nat × Option Nat :=
  let filtered := headerRowCells sheet row
  if filtered.length < threshold then st
  else
    let tier := rowTier filtered
    if tier < st.1 ∨ (tier = st.1 ∧ st.2 = none) then (tier, some row) else st

/-- Mirrors column_map.detect_header_row (FR-007): scan rows 7..30,
    classify qualifying rows into tiers, return the topmost row of the
    best (lowest) tier, ERR_014 when no row qualifies. -/
def detect_header_row (sheet : Sheet) (sheet_type : String)
    (config : HeaderConfig) : Except HeaderError Nat :=
  let threshold :=
    if sheet_type = "invoice" then config.invoice_min_headers
    else config.packing_min_headers
  let final := (List.range' 7 24).foldl (headerScanStep sheet threshold) (3, none)
  match final.2 with
  | none => .error .headerNotFound
  | some row => .ok row

/- ------------------------------------------------------------------ -/
/- merge_tracker.py: merged-cell snapshot (FR-010)                     -/
/- ------------------------------------------------------------------ -/

/-- Mirrors models.MergeRange: one captured merged range, 1-based
    inclusive bounds. -/
structure MergeRange where
  min_row : Nat
  max_row : Nat
  min_col : Nat
  max_col : Nat
deriving DecidableEq, Repr

/-- Cell membership in a captured range. -/
def inRange (r : MergeRange) (row col : Nat) : Bool :=
  decide (r.min_row ≤ row) && decide (row ≤ r.max_row) &&
  decide (r.min_col ≤ col) && decide (col ≤ r.max_col)

/-- The _cell_to_range dict of MergeTracker.__init__: ranges are
    inserted in list order and each one overwrites the cells it covers,
    so a lookup returns the last range containing the cell. -/
def cellToRange (ranges : List MergeRange) (row col : Nat) : Option MergeRange :=
  ranges.reverse.find? (fun r => inRange r row col)

/-- Mirrors MergeTracker.get_anchor_value: the anchor value for a cell
    inside a captured range, the cell value itself otherwise. -/
def get_anchor_value (ranges : List MergeRange) (sheet : Sheet)
    (row col : Nat) : Option String :=
  match cellToRange ranges row col with
  | none => sheet.cells row col
  | some r => sheet.cells r.min_row r.min_col

/-- Models step 3 of MergeTracker.__init__ (openpyxl unmerge_cells on
    every captured range): after unmerging, a cell keeps its value
    exactly when it is not a non-anchor member of any captured range. -/
def unmergeSheet (ranges : List MergeRange) (sheet : Sheet) : Sheet :=
  ⟨fun row col =>
    if ranges.any (fun r =>
        inRange r row col &&
        !(decide (row = r.min_row) && decide (col = r.min_col))) then none
    else sheet.cells row col⟩

/- ------------------------------------------------------------------ -/
/- transform.py: currency / country conversion (FR-018, FR-019)        -/
/- ------------------------------------------------------------------ -/

/-- Replace every occurrence of ", " by "," left to right, modelling
    str.replace(", ", ",") in config_helpers.normalize_lookup_key. -/
def collapseCommaSpace : List Char → List Char
  | [] => []
  | ',' :: ' ' :: rest => ',' :: collapseCommaSpace rest
  | c :: rest => c :: collapseCommaSpace rest

/-- ASCII uppercasing, modelling str.upper on the inputs involved. -/
def pyUpper (s : String) : String :=
  String.mk (s.toList.map Char.toUpper)

/-- Mirrors config_helpers.normalize_lookup_key: strip, uppercase,
    collapse comma-space. -/
def normalize_lookup_key (value : String) : String :=
  String.mk (collapseCommaSpace (pyUpper (pyStrip value)).toList)

/-- A lookup table (currency_lookup / country_lookup): a string-keyed
    dict modelled as an association list with distinct keys. -/
def tableGet (table : List (String × String)) (k : String) : Option String :=
  (table.find? (fun kv => kv.1 = k)).map (fun kv => kv.2)

/-- The transform-stage slice of AppConfig: the two lookup tables. -/
structure TransformConfig where
  currency_lookup : List (String × String)
  country_lookup : List (String × String)

/-- The warning codes transform.py can emit. -/
inductive WarnCode where
  | ATT_003
  | ATT_004
deriving DecidableEq, Repr

/-- A non-fatal ProcessingError as produced by transform.py: warning
    code and the field it concerns. -/
structure PWarning where
  code : WarnCode
  field : String
deriving DecidableEq, Repr

/-- The per-item effect of the convert_currency loop body: replace the
    currency by the looked-up target code, keep the item unchanged when
    the lookup misses. -/
def convertedCurrencyItem (config : TransformConfig) (item : InvoiceItem) :
    InvoiceItem :=
  match tableGet config.currency_lookup (normalize_lookup_key item.currency) with
  | some target_code => { item with currency := target_code }
  | none => item

/-- The per-item effect of the convert_country loop body. -/
def convertedCountryItem (config : TransformConfig) (item : InvoiceItem) :
    InvoiceItem :=
  match tableGet config.country_lookup (normalize_lookup_key item.coo) with
  | some target_code => { item with coo := target_code }
  | none => item

/-- Mirrors transform.convert_currency (FR-018): per item, look the
    normalized currency up; on a hit return a copy with the target
    code, on a miss return an unchanged copy plus one ATT_003 warning. -/
def convert_currency (config : TransformConfig) :
    List InvoiceItem → List InvoiceItem × List PWarning
  | [] => ([], [])
  | item :: rest =>
    let r := convert_currency config rest
    match tableGet config.currency_lookup (normalize_lookup_key item.currency) with
    | some target_code => ({ item with currency := target_code } :: r.1, r.2)
    | none => (item :: r.1, ⟨.ATT_003, "currency"⟩ :: r.2)

/-- Mirrors transform.convert_country (FR-019): same shape as
    convert_currency over the coo field, warning code ATT_004. -/
def convert_country (config : TransformConfig) :
    List InvoiceItem → List InvoiceItem × List PWarning
  | [] => ([], [])
  | item :: rest =>
    let r := convert_country config rest
    match tableGet config.country_lookup (normalize_lookup_key item.coo) with
    | some target_code => ({ item with coo := target_code } :: r.1, r.2)
    | none => (item :: r.1, ⟨.ATT_004, "coo"⟩ :: r.2)

/- ------------------------------------------------------------------ -/
/- extract_invoice.py: line-item construction site (line 398)          -/
/- ------------------------------------------------------------------ -/

/-- Mirrors the single InvoiceItem construction of
    extract_invoice.py lines 398-403: every extracted line item is
    created with allocated_weight=None. -/
def mkExtractedInvoiceItem (part_no po_no : String) (qty price amount : ℚ)
    (currency coo : String) (cod : Option String)
    (brand brand_type model : String) (inv_no serial : Option String) :
    InvoiceItem :=
  { part_no := part_no, po_no := po_no, qty := qty, price := price,
    amount := amount, currency := currency, coo := coo, cod := cod,
    brand := brand, brand_type := brand_type, model := model,
    inv_no := inv_no, serial := serial, allocated_weight := none }

/-- The item at an index with allocated_weight cleared: the projection
    to every field the allocator may not change. -/
def eraseWeight (it : InvoiceItem) : InvoiceItem :=
  { it with allocated_weight := none }

/- ------------------------------------------------------------------ -/
/- Concrete inputs used by witnesses and counterexamples               -/
/- ------------------------------------------------------------------ -/

/-- A minimal invoice line for part "A". -/
def cItemA : InvoiceItem :=
  { part_no := "A", po_no := "P1", qty := 1, price := 1, amount := 1,
    currency := "USD", coo := "CHINA", cod := none, brand := "b",
    brand_type := "t", model := "m", inv_no := none, serial := none,
    allocated_weight := none }

/-- A minimal invoice line for part "B". -/
def cItemB : InvoiceItem :=
  { cItemA with part_no := "B" }

/-- Packing row: part "A", qty 1, nw 0.10. -/
def cPackA : PackingItem :=
  { part_no := "A", qty := 1, nw := 1/10, is_first_row_of_merge := true,
    row_number := 10 }

/-- Packing row: part "B", qty 1, nw 0.05. -/
def cPackB : PackingItem :=
  { part_no := "B", qty := 1, nw := 5/100, is_first_row_of_merge := true,
    row_number := 11 }

/-- Packing totals with total_nw 0.10 at detected precision 2. -/
def cTotals : PackingTotals :=
  { total_nw := 1/10, total_nw_precision := 2, total_gw := 1,
    total_gw_precision := 2, total_packets := none }

/-- A sheet whose row 8 has 8 plain-text cells (tier 1) and whose row 9
    has 8 header-keyword cells (tier 0). -/
def wHeaderSheet : Sheet :=
  ⟨fun row col =>
    if row = 8 ∧ col ≤ 8 then some "zz"
    else if row = 9 ∧ col ≤ 8 then some "qty" else none⟩

/- ------------------------------------------------------------------ -/
/- Helper lemmas                                                       -/
/- ------------------------------------------------------------------ -/

theorem except_bind_ok {ε α β : Type} {x : Except ε α} {f : α → Except ε β} {r : β}
    (h : x >>= f = .ok r) : ∃ a, x = .ok a ∧ f a = .ok r := by
  cases x with
  | ok a => exact ⟨a, rfl, by simpa [Bind.bind, Except.bind] using h⟩
  | error e => simp [Bind.bind, Except.bind] at h

theorem except_bind_error {ε α β : Type} {x : Except ε α} {f : α → Except ε β}
    {a : α} (hx : x = .ok a) {e : ε} (hf : f a = .error e) :
    x >>= f = .error e := by
  subst hx
  simpa [Bind.bind, Except.bind] using hf

theorem except_bind_error_left {ε α β : Type} {x : Except ε α}
    {f : α → Except ε β} {e : ε} (hx : x = .error e) :
    x >>= f = .error e := by
  subst hx
  simp [Bind.bind, Except.bind]

theorem validate_final_sum_ok_iff {items : List InvoiceItem} {t : ℚ} :
    validate_final_sum items t = .ok () ↔
      (items.filterMap (fun it => it.allocated_weight)).sum = t := by
  unfold validate_final_sum
  by_cases h : (items.filterMap (fun it => it.allocated_weight)).sum = t <;>
    simp [h]

/- ------------------------------------------------------------------ -/
/- C1: final sum invariant                                             -/
/- ------------------------------------------------------------------ -/

/-- C1: for every successful allocate_weights call the allocated weights of
    the returned line items sum to packing_totals.total_nw exactly (rational
    equality, the model of exact Decimal equality); and whenever the pipeline
    up to proportional allocation succeeds but the allocated sum differs from
    total_nw, allocate_weights fails with FinalSumMismatch (ERR_048). -/
theorem allocate_weights_final_sum (invoice_items : List InvoiceItem)
    (packing_items : List PackingItem) (packing_totals : PackingTotals) :
    (∀ result,
      allocate_weights invoice_items packing_items packing_totals = .ok result →
      (result.filterMap (fun it => it.allocated_weight)).sum =
        packing_totals.total_nw) ∧
    (∀ items,
      allocateNoFinal invoice_items packing_items packing_totals = .ok items →
      (items.filterMap (fun it => it.allocated_weight)).sum ≠
        packing_totals.total_nw →
      allocate_weights invoice_items packing_items packing_totals =
        .error .finalSumMismatch) := by
  constructor
  · intro result h
    unfold allocate_weights at h
    obtain ⟨items, h1, h2⟩ := except_bind_ok h
    obtain ⟨u, h3, h4⟩ := except_bind_ok h2
    have hres : items = result := by
      simpa [Pure.pure, Except.pure] using h4
    subst hres
    cases u
    exact validate_final_sum_ok_iff.mp h3
  · intro items h1 h2
    unfold allocate_weights
    refine except_bind_error h1 ?_
    refine except_bind_error_left ?_
    simp [validate_final_sum, h2]

unseal Rat.add Rat.mul Rat.inv Rat.sub in
theorem allocate_weights_final_sum_witness :
    (([{ cItemA with allocated_weight := some (1/10) },
        { cItemB with allocated_weight := some 0 }].filterMap
          (fun it => it.allocated_weight)).sum = cTotals.total_nw) :=
  (allocate_weights_final_sum [cItemA, cItemB] [cPackA, cPackB] cTotals).1
    _ (by rfl)

/- ------------------------------------------------------------------ -/
/- round_half_up facts and the zero-check loop                         -/
/- ------------------------------------------------------------------ -/

theorem round_half_up_nonneg {x : ℚ} (d : Nat) (hx : 0 ≤ x) :
    0 ≤ round_half_up x d := by
  unfold round_half_up
  rw [if_pos hx]
  apply div_nonneg
  · exact_mod_cast Int.floor_nonneg.mpr (by positivity)
  · positivity

theorem round_half_up_eq_zero_iff {x : ℚ} {d : Nat} :
    round_half_up x d = 0 ↔ |x| * 10 ^ d < 1 / 2 := by
  have hpow : (0:ℚ) < 10 ^ d := by positivity
  unfold round_half_up
  by_cases hx : 0 ≤ x
  · rw [if_pos hx, abs_of_nonneg hx, div_eq_zero_iff]
    constructor
    · intro h
      rcases h with h | h
      · have h0 : ⌊x * 10 ^ d + 1 / 2⌋ = 0 := by exact_mod_cast h
        have := (Int.floor_eq_zero_iff.mp h0).2
        linarith
      · exact absurd h (ne_of_gt hpow)
    · intro h
      left
      have h0 : ⌊x * 10 ^ d + 1 / 2⌋ = 0 := by
        rw [Int.floor_eq_zero_iff]
        constructor
        · positivity
        · linarith
      exact_mod_cast h0
  · push_neg at hx
    rw [if_neg (not_le.mpr hx), abs_of_neg hx, neg_eq_zero, div_eq_zero_iff]
    constructor
    · intro h
      rcases h with h | h
      · have h0 : ⌊-x * 10 ^ d + 1 / 2⌋ = 0 := by exact_mod_cast h
        have := (Int.floor_eq_zero_iff.mp h0).2
        linarith
      · exact absurd h (ne_of_gt hpow)
    · intro h
      left
      have h0 : ⌊-x * 10 ^ d + 1 / 2⌋ = 0 := by
        rw [Int.floor_eq_zero_iff]
        constructor
        · nlinarith
        · linarith
      exact_mod_cast h0

theorem round_half_up_zero_mono {x : ℚ} {r s : Nat} (hrs : r ≤ s)
    (h : round_half_up x s = 0) : round_half_up x r = 0 := by
  rw [round_half_up_eq_zero_iff] at h ⊢
  have hmono : (10:ℚ) ^ r ≤ 10 ^ s := by
    exact pow_le_pow_right₀ (by norm_num) hrs
  have habs : (0:ℚ) ≤ |x| := abs_nonneg x
  nlinarith

theorem hasZeroAt_mono {agg_nw : List (String × ℚ)} {r s : Nat} (hrs : r ≤ s)
    (h : hasZeroAt agg_nw s) : hasZeroAt agg_nw r := by
  obtain ⟨kv, hmem, hz⟩ := h
  exact ⟨kv, hmem, round_half_up_zero_mono hrs hz⟩

theorem find?_zero_none_iff {agg_nw : List (String × ℚ)} {p : Nat} :
    agg_nw.find? (fun kv => decide (round_half_up kv.2 p = 0)) = none ↔
      ¬ hasZeroAt agg_nw p := by
  rw [List.find?_eq_none]
  simp [hasZeroAt]

theorem zeroCheckLoop_succ_none {agg_nw : List (String × ℚ)}
    {fuel current : Nat}
    (h : agg_nw.find? (fun kv => decide (round_half_up kv.2 current = 0)) = none) :
    zeroCheckLoop agg_nw (fuel + 1) current = .ok current := by
  conv_lhs => rw [zeroCheckLoop]
  rw [h]

theorem zeroCheckLoop_succ_some {agg_nw : List (String × ℚ)}
    {fuel current : Nat} {kv : String × ℚ}
    (h : agg_nw.find? (fun kv => decide (round_half_up kv.2 current = 0)) =
      some kv) :
    zeroCheckLoop agg_nw (fuel + 1) current =
      if current = 5 then .error (.weightRoundsToZero kv.1)
      else zeroCheckLoop agg_nw fuel (current + 1) := by
  conv_lhs => rw [zeroCheckLoop]
  rw [h]

theorem zeroCheckLoop_ok_spec (agg_nw : List (String × ℚ)) :
    ∀ fuel current q, current + fuel = 6 → 1 ≤ fuel →
    zeroCheckLoop agg_nw fuel current = .ok q →
    current ≤ q ∧ q ≤ 5 ∧ ¬ hasZeroAt agg_nw q ∧
      ∀ r, current ≤ r → r < q → hasZeroAt agg_nw r := by
  intro fuel
  induction fuel with
  | zero => intro current q _ h1; omega
  | succ n ih =>
    intro current q hsum _ hrun
    cases hfind : agg_nw.find? (fun kv => decide (round_half_up kv.2 current = 0)) with
    | none =>
      rw [zeroCheckLoop_succ_none hfind] at hrun
      have hq : current = q := by
        simpa using hrun
      subst hq
      exact ⟨le_refl _, by omega, find?_zero_none_iff.mp hfind,
        fun r h1 h2 => absurd h2 (by omega)⟩
    | some kv =>
      rw [zeroCheckLoop_succ_some hfind] at hrun
      by_cases hc : current = 5
      · rw [if_pos hc] at hrun
        cases hrun
      · rw [if_neg hc] at hrun
        have hz : hasZeroAt agg_nw current := by
          refine ⟨kv, List.mem_of_find?_eq_some hfind, ?_⟩
          have := List.find?_some hfind
          simpa using this
        obtain ⟨h1, h2, h3, h4⟩ := ih (current + 1) q (by omega) (by omega) hrun
        refine ⟨by omega, h2, h3, ?_⟩
        intro r hr1 hr2
        by_cases hrc : r = current
        · subst hrc; exact hz
        · exact h4 r (by omega) hr2

theorem zeroCheckLoop_error_spec (agg_nw : List (String × ℚ)) :
    ∀ fuel current e, zeroCheckLoop agg_nw fuel current = .error e →
    ∃ kv ∈ agg_nw, round_half_up kv.2 5 = 0 ∧ e = .weightRoundsToZero kv.1 := by
  intro fuel
  induction fuel with
  | zero => intro current e h; cases h
  | succ n ih =>
    intro current e hrun
    cases hfind : agg_nw.find? (fun kv => decide (round_half_up kv.2 current = 0)) with
    | none => rw [zeroCheckLoop_succ_none hfind] at hrun; cases hrun
    | some kv =>
      rw [zeroCheckLoop_succ_some hfind] at hrun
      by_cases hc : current = 5
      · rw [if_pos hc] at hrun
        refine ⟨kv, List.mem_of_find?_eq_some hfind, ?_, ?_⟩
        · have := List.find?_some hfind
          rw [← hc]
          simpa using this
        · cases hrun; rfl
      · rw [if_neg hc] at hrun
        exact ih (current + 1) e hrun

theorem zeroCheckLoop_error_of_zero5 (agg_nw : List (String × ℚ)) :
    ∀ fuel current, current + fuel = 6 → 1 ≤ fuel → hasZeroAt agg_nw 5 →
    ∃ e, zeroCheckLoop agg_nw fuel current = .error e := by
  intro fuel
  induction fuel with
  | zero => intro current _ h1; omega
  | succ n ih =>
    intro current hsum _ hz5
    have hzc : hasZeroAt agg_nw current := hasZeroAt_mono (by omega) hz5
    cases hfind : agg_nw.find? (fun kv => decide (round_half_up kv.2 current = 0)) with
    | none => exact absurd (find?_zero_none_iff.mp hfind) (not_not.mpr hzc)
    | some kv =>
      by_cases hc : current = 5
      · refine ⟨.weightRoundsToZero kv.1, ?_⟩
        rw [zeroCheckLoop_succ_some hfind, if_pos hc]
      · obtain ⟨e, he⟩ := ih (current + 1) (by omega) (by omega) hz5
        refine ⟨e, ?_⟩
        rw [zeroCheckLoop_succ_some hfind, if_neg hc]
        exact he

theorem determine_precision_eq (total_nw : ℚ) (total_nw_precision : Nat)
    (agg_nw : List (String × ℚ)) :
    determine_precision total_nw total_nw_precision agg_nw =
      zero_check_escalation
        (chosenPrecision total_nw total_nw_precision agg_nw) agg_nw := by
  unfold determine_precision chosenPrecision
  simp only [List.map_map]
  rfl

theorem chosenPrecision_le_five (total_nw : ℚ) (total_nw_precision : Nat)
    (agg_nw : List (String × ℚ)) :
    chosenPrecision total_nw total_nw_precision agg_nw ≤ 5 := by
  unfold chosenPrecision
  split <;> omega

/- ------------------------------------------------------------------ -/
/- C2: precision determination                                         -/
/- ------------------------------------------------------------------ -/

/-- C2: determine_precision behaves as specified: with N the detected
    precision clamped to [2,5], the sum-matching step chooses N when the
    rounded part weights sum to total_nw at N and min(N+1,5) otherwise
    (that choice is the definition chosenPrecision); the returned
    precision is then the least precision q between the chosen one and 5
    at which no part weight rounds to zero (every strictly smaller
    precision at least the chosen one has a zero); any failure is
    WeightRoundsToZero (ERR_044) for a part whose weight still rounds to
    zero at 5, and if some part weight rounds to zero at precision 5 the
    call does fail. -/
theorem determine_precision_spec (total_nw : ℚ) (total_nw_precision : Nat)
    (agg_nw : List (String × ℚ)) :
    (∀ q, determine_precision total_nw total_nw_precision agg_nw = .ok q →
      chosenPrecision total_nw total_nw_precision agg_nw ≤ q ∧ q ≤ 5 ∧
      ¬ hasZeroAt agg_nw q ∧
      ∀ r, chosenPrecision total_nw total_nw_precision agg_nw ≤ r → r < q →
        hasZeroAt agg_nw r) ∧
    (∀ e, determine_precision total_nw total_nw_precision agg_nw = .error e →
      ∃ kv ∈ agg_nw, round_half_up kv.2 5 = 0 ∧ e = .weightRoundsToZero kv.1) ∧
    (hasZeroAt agg_nw 5 →
      ∃ e, determine_precision total_nw total_nw_precision agg_nw = .error e) := by
  have hle := chosenPrecision_le_five total_nw total_nw_precision agg_nw
  refine ⟨?_, ?_, ?_⟩
  · intro q hq
    rw [determine_precision_eq] at hq
    exact zeroCheckLoop_ok_spec agg_nw _ _ q (by omega) (by omega) hq
  · intro e he
    rw [determine_precision_eq] at he
    exact zeroCheckLoop_error_spec agg_nw _ _ e he
  · intro hz
    rw [determine_precision_eq]
    exact zeroCheckLoop_error_of_zero5 agg_nw _ _ (by omega) (by omega) hz

unseal Rat.add Rat.mul Rat.inv Rat.sub in
theorem determine_precision_spec_witness :
    chosenPrecision (1/10) 2 [("A", 1/10), ("B", 5/100)] ≤ 3 ∧ 3 ≤ 5 ∧
    ¬ hasZeroAt [("A", 1/10), ("B", 5/100)] 3 ∧
    ∀ r, chosenPrecision (1/10) 2 [("A", 1/10), ("B", 5/100)] ≤ r → r < 3 →
      hasZeroAt [("A", 1/10), ("B", 5/100)] r :=
  (determine_precision_spec (1/10) 2 [("A", 1/10), ("B", 5/100)]).1 3 (by rfl)

/- ------------------------------------------------------------------ -/
/- C3: packing-sum tolerance boundary                                  -/
/- ------------------------------------------------------------------ -/

/-- C3: the pre-allocation packing-sum validation fails with
    PackingSumMismatch (ERR_047) exactly when the absolute difference
    between the unrounded aggregated sum and total_nw is strictly greater
    than 0.1 (so exactly 0.1 passes), and whenever the aggregated sums
    violate the tolerance the whole allocator fails with
    PackingSumMismatch, before any precision or rounding decision. -/
theorem validate_packing_sum_tolerance (agg_nw : List (String × ℚ))
    (total_nw : ℚ) :
    (validate_packing_sum agg_nw total_nw = .error .packingSumMismatch ↔
      1 / 10 < |((agg_nw.map (fun kv => kv.2)).sum) - total_nw|) ∧
    (validate_packing_sum agg_nw total_nw = .ok () ↔
      |((agg_nw.map (fun kv => kv.2)).sum) - total_nw| ≤ 1 / 10) ∧
    (∀ invoice_items packing_items packing_totals agg,
      aggregate_packing packing_items = .ok agg →
      1 / 10 < |((agg.1.map (fun kv => kv.2)).sum) - packing_totals.total_nw| →
      allocate_weights invoice_items packing_items packing_totals =
        .error .packingSumMismatch) := by
  have hmain : ∀ (m : List (String × ℚ)) (t : ℚ),
      (validate_packing_sum m t = .error .packingSumMismatch ↔
        1 / 10 < |((m.map (fun kv => kv.2)).sum) - t|) ∧
      (validate_packing_sum m t = .ok () ↔
        |((m.map (fun kv => kv.2)).sum) - t| ≤ 1 / 10) := by
    intro m t
    unfold validate_packing_sum
    by_cases h : 1 / 10 < |((m.map (fun kv => kv.2)).sum) - t|
    · simp [h]
    · simp [h, not_lt.mp h]
  refine ⟨(hmain agg_nw total_nw).1, (hmain agg_nw total_nw).2, ?_⟩
  intro invoice_items packing_items packing_totals agg hagg hdiff
  unfold allocate_weights
  refine except_bind_error_left ?_
  unfold allocateNoFinal
  refine except_bind_error hagg ?_
  refine except_bind_error_left ?_
  exact (hmain agg.1 packing_totals.total_nw).1.mpr hdiff

unseal Rat.add Rat.mul Rat.inv Rat.sub in
theorem validate_packing_sum_tolerance_witness :
    validate_packing_sum [("A", 11/10)] 1 = .ok () ∧
    validate_packing_sum [("A", 11000001/10000000)] 1 =
      .error .packingSumMismatch :=
  ⟨(validate_packing_sum_tolerance [("A", 11/10)] 1).2.1.mpr
     (by norm_num [abs_le]),
   (validate_packing_sum_tolerance [("A", 11000001/10000000)] 1).1.mpr
     (by norm_num [lt_abs])⟩

/- ------------------------------------------------------------------ -/
/- C8: merge transparency                                              -/
/- ------------------------------------------------------------------ -/

theorem cellToRange_none_iff {ranges : List MergeRange} {row col : Nat} :
    cellToRange ranges row col = none ↔
      ∀ r ∈ ranges, inRange r row col = false := by
  unfold cellToRange
  rw [List.find?_eq_none]
  constructor
  · intro h r hr
    have := h r (List.mem_reverse.mpr hr)
    simpa using this
  · intro h r hr
    have := h r (List.mem_reverse.mp hr)
    simp [this]

theorem cellToRange_some_mem {ranges : List MergeRange} {row col : Nat}
    {r : MergeRange} (h : cellToRange ranges row col = some r) :
    r ∈ ranges ∧ inRange r row col = true := by
  unfold cellToRange at h
  have hmem := List.mem_of_find?_eq_some h
  have hp := List.find?_some h
  exact ⟨List.mem_reverse.mp hmem, hp⟩

/-- C8: with the captured ranges pairwise disjoint (as merged ranges of a
    real worksheet are), get_anchor_value at any member cell of a captured
    range returns the value stored at that range's top-left anchor — the
    same for every member cell — both on the original sheet and after the
    sheet has been fully unmerged (non-anchor cells blanked); a cell inside
    no captured range reads its own value. -/
theorem get_anchor_value_merge_transparent (ranges : List MergeRange)
    (sheet : Sheet)
    (hdisj : ∀ r1 ∈ ranges, ∀ r2 ∈ ranges, ∀ row col,
      inRange r1 row col = true → inRange r2 row col = true → r1 = r2) :
    (∀ r ∈ ranges, ∀ row col, inRange r row col = true →
      get_anchor_value ranges sheet row col = sheet.cells r.min_row r.min_col ∧
      get_anchor_value ranges (unmergeSheet ranges sheet) row col =
        sheet.cells r.min_row r.min_col) ∧
    (∀ row col, (∀ r ∈ ranges, inRange r row col = false) →
      ∀ s : Sheet, get_anchor_value ranges s row col = s.cells row col) := by
  constructor
  · intro r hr row col hin
    have hanchor : inRange r r.min_row r.min_col = true := by
      simp only [inRange, Bool.and_eq_true, decide_eq_true_eq] at hin ⊢
      omega
    have hcr : cellToRange ranges row col = some r := by
      cases h : cellToRange ranges row col with
      | none =>
        have := (cellToRange_none_iff.mp h) r hr
        rw [hin] at this
        cases this
      | some r2 =>
        obtain ⟨hmem2, hin2⟩ := cellToRange_some_mem h
        rw [hdisj r2 hmem2 r hr row col hin2 hin]
    have hval : ∀ s : Sheet, get_anchor_value ranges s row col =
        s.cells r.min_row r.min_col := by
      intro s
      unfold get_anchor_value
      rw [hcr]
    refine ⟨hval sheet, ?_⟩
    rw [hval (unmergeSheet ranges sheet)]
    show (unmergeSheet ranges sheet).cells r.min_row r.min_col =
      sheet.cells r.min_row r.min_col
    unfold unmergeSheet
    simp only
    rw [if_neg]
    intro hany
    rw [List.any_eq_true] at hany
    obtain ⟨r2, hr2, hp⟩ := hany
    rw [Bool.and_eq_true] at hp
    obtain ⟨hin2, hnot⟩ := hp
    have : r2 = r := hdisj r2 hr2 r hr r.min_row r.min_col hin2 hanchor
    subst this
    simp at hnot
  · intro row col hno s
    unfold get_anchor_value
    rw [cellToRange_none_iff.mpr hno]

unseal Rat.add Rat.mul Rat.inv Rat.sub in
theorem get_anchor_value_merge_transparent_witness :
    get_anchor_value [⟨1, 2, 1, 3⟩] ⟨fun row col =>
        if row = 1 ∧ col = 1 then some "V" else some "W"⟩ 2 3 = some "V" ∧
    get_anchor_value [⟨1, 2, 1, 3⟩]
      (unmergeSheet [⟨1, 2, 1, 3⟩] ⟨fun row col =>
        if row = 1 ∧ col = 1 then some "V" else some "W"⟩) 2 3 = some "V" :=
  (get_anchor_value_merge_transparent [⟨1, 2, 1, 3⟩]
      ⟨fun row col => if row = 1 ∧ col = 1 then some "V" else some "W"⟩
      (by
        intro r1 h1 r2 h2 row col _ _
        simp only [List.mem_singleton] at h1 h2
        rw [h1, h2])).1
    ⟨1, 2, 1, 3⟩ (List.mem_singleton.mpr rfl) 2 3 (by decide)

/- ------------------------------------------------------------------ -/
/- C9: currency / country conversion                                   -/
/- ------------------------------------------------------------------ -/

theorem convert_currency_map (config : TransformConfig) :
    ∀ items : List InvoiceItem,
    (convert_currency config items).1 =
      items.map (convertedCurrencyItem config) ∧
    (convert_currency config items).2 =
      (items.filter (fun item => (tableGet config.currency_lookup
          (normalize_lookup_key item.currency)).isNone)).map
        (fun _ => (⟨.ATT_003, "currency"⟩ : PWarning)) := by
  intro items
  induction items with
  | nil => simp [convert_currency]
  | cons item rest ih =>
    cases h : tableGet config.currency_lookup (normalize_lookup_key item.currency) with
    | some c =>
      simp [convert_currency, h, convertedCurrencyItem, ih.1, ih.2,
        List.filter_cons]
    | none =>
      simp [convert_currency, h, convertedCurrencyItem, ih.1, ih.2,
        List.filter_cons]

theorem convert_country_map (config : TransformConfig) :
    ∀ items : List InvoiceItem,
    (convert_country config items).1 =
      items.map (convertedCountryItem config) ∧
    (convert_country config items).2 =
      (items.filter (fun item => (tableGet config.country_lookup
          (normalize_lookup_key item.coo)).isNone)).map
        (fun _ => (⟨.ATT_004, "coo"⟩ : PWarning)) := by
  intro items
  induction items with
  | nil => simp [convert_country]
  | cons item rest ih =>
    cases h : tableGet config.country_lookup (normalize_lookup_key item.coo) with
    | some c =>
      simp [convert_country, h, convertedCountryItem, ih.1, ih.2,
        List.filter_cons]
    | none =>
      simp [convert_country, h, convertedCountryItem, ih.1, ih.2,
        List.filter_cons]

/-- C9: convert_currency and convert_country are total functions returning
    per-item results: the output items are exactly the input items mapped
    through a per-item conversion that leaves an item completely unchanged
    when its currency (resp. coo) has no lookup match and changes only the
    currency (resp. coo) field on a match, and the warning list carries
    exactly one ATT_003 (resp. ATT_004) warning per unmatched item; the
    input list is untouched (the outputs are fresh copies by
    construction). -/
theorem convert_codes_spec (config : TransformConfig)
    (items : List InvoiceItem) :
    ((convert_currency config items).1 =
        items.map (convertedCurrencyItem config) ∧
      (convert_currency config items).2 =
        (items.filter (fun item => (tableGet config.currency_lookup
            (normalize_lookup_key item.currency)).isNone)).map
          (fun _ => (⟨.ATT_003, "currency"⟩ : PWarning))) ∧
    ((convert_country config items).1 =
        items.map (convertedCountryItem config) ∧
      (convert_country config items).2 =
        (items.filter (fun item => (tableGet config.country_lookup
            (normalize_lookup_key item.coo)).isNone)).map
          (fun _ => (⟨.ATT_004, "coo"⟩ : PWarning))) ∧
    (∀ item,
      tableGet config.currency_lookup (normalize_lookup_key item.currency) =
        none →
      convertedCurrencyItem config item = item) ∧
    (∀ item target_code,
      tableGet config.currency_lookup (normalize_lookup_key item.currency) =
        some target_code →
      convertedCurrencyItem config item = { item with currency := target_code }) ∧
    (∀ item,
      tableGet config.country_lookup (normalize_lookup_key item.coo) = none →
      convertedCountryItem config item = item) ∧
    (∀ item target_code,
      tableGet config.country_lookup (normalize_lookup_key item.coo) =
        some target_code →
      convertedCountryItem config item = { item with coo := target_code }) := by
  refine ⟨convert_currency_map config items, convert_country_map config items,
    ?_, ?_, ?_, ?_⟩
  · intro item h
    unfold convertedCurrencyItem
    rw [h]
  · intro item target_code h
    unfold convertedCurrencyItem
    rw [h]
  · intro item h
    unfold convertedCountryItem
    rw [h]
  · intro item target_code h
    unfold convertedCountryItem
    rw [h]

theorem convert_codes_spec_witness :
    convertedCurrencyItem ⟨[("USD", "502")], []⟩
        { cItemA with currency := "ZZZ" } =
      { cItemA with currency := "ZZZ" } :=
  (convert_codes_spec ⟨[("USD", "502")], []⟩ []).2.2.1
    { cItemA with currency := "ZZZ" } (by rfl)

/- ------------------------------------------------------------------ -/
/- setWeight and allocGroupGo: frame and assignment lemmas             -/
/- ------------------------------------------------------------------ -/

theorem setWeight_oob {items : List InvoiceItem} {idx : Nat} {w : ℚ}
    (h : items.get? idx = none) : setWeight items idx w = items := by
  unfold setWeight
  rw [h]

theorem setWeight_set {items : List InvoiceItem} {idx : Nat} {w : ℚ}
    {it : InvoiceItem} (h : items.get? idx = some it) :
    setWeight items idx w = items.set idx { it with allocated_weight := some w } := by
  unfold setWeight
  rw [h]

theorem setWeight_get?_ne (items : List InvoiceItem) (idx : Nat) (w : ℚ)
    {j : Nat} (h : j ≠ idx) :
    (setWeight items idx w).get? j = items.get? j := by
  cases hg : items.get? idx with
  | none => rw [setWeight_oob hg]
  | some it =>
    rw [setWeight_set hg, List.get?_eq_getElem?, List.get?_eq_getElem?]
    exact List.getElem?_set_ne (Ne.symm h)

theorem setWeight_get?_self {items : List InvoiceItem} {idx : Nat} (w : ℚ)
    {it : InvoiceItem} (h : items.get? idx = some it) :
    (setWeight items idx w).get? idx =
      some { it with allocated_weight := some w } := by
  have hlt : idx < items.length := by
    rw [List.get?_eq_getElem?] at h
    exact (List.getElem?_eq_some.mp h).1
  rw [setWeight_set h, List.get?_eq_getElem?]
  exact List.getElem?_set_eq_of_lt _ hlt

theorem setWeight_length (items : List InvoiceItem) (idx : Nat) (w : ℚ) :
    (setWeight items idx w).length = items.length := by
  cases h : items.get? idx with
  | none => rw [setWeight_oob h]
  | some it => rw [setWeight_set h]; exact List.length_set items idx _

theorem setWeight_frame (items : List InvoiceItem) (idx : Nat) (w : ℚ)
    (j : Nat) :
    ((setWeight items idx w).get? j).map eraseWeight =
      (items.get? j).map eraseWeight := by
  by_cases hj : j = idx
  · subst hj
    cases h : items.get? j with
    | none => rw [setWeight_oob h, h]
    | some it => rw [setWeight_get?_self w h]; rfl
  · rw [setWeight_get?_ne items idx w hj]

theorem setWeight_qty {items : List InvoiceItem} {idx : Nat} {w : ℚ}
    {j : Nat} {it : InvoiceItem}
    (h : (setWeight items idx w).get? j = some it) :
    ∃ it0, items.get? j = some it0 ∧ it.qty = it0.qty := by
  by_cases hj : j = idx
  · subst hj
    cases h0 : items.get? j with
    | none => rw [setWeight_oob h0, h0] at h; cases h
    | some it0 =>
      rw [setWeight_get?_self w h0] at h
      exact ⟨it0, rfl, by cases h; rfl⟩
  · rw [setWeight_get?_ne items idx w hj] at h
    exact ⟨it, h, rfl⟩

theorem setWeight_isSome {items : List InvoiceItem} {idx : Nat} {w : ℚ}
    {j : Nat} {it : InvoiceItem} (h : items.get? j = some it)
    (hs : it.allocated_weight.isSome = true) :
    ∃ it2, (setWeight items idx w).get? j = some it2 ∧
      it2.allocated_weight.isSome = true := by
  by_cases hj : j = idx
  · subst hj
    exact ⟨{ it with allocated_weight := some w }, setWeight_get?_self w h, rfl⟩
  · exact ⟨it, by rw [setWeight_get?_ne items idx w hj]; exact h, hs⟩

theorem frame_length {l1 l2 : List InvoiceItem}
    (h : ∀ j, (l1.get? j).map eraseWeight = (l2.get? j).map eraseWeight) :
    l1.length = l2.length := by
  have hnone : ∀ j, l1.get? j = none ↔ l2.get? j = none := by
    intro j
    have := h j
    constructor
    · intro hn
      rw [hn] at this
      cases h2 : l2.get? j with
      | none => rfl
      | some it => rw [h2] at this; cases this
    · intro hn
      rw [hn] at this
      cases h2 : l1.get? j with
      | none => rfl
      | some it => rw [h2] at this; cases this
  apply le_antisymm
  · rw [← List.get?_eq_none]
    exact (hnone l2.length).mpr (List.get?_eq_none.mpr (le_refl _))
  · rw [← List.get?_eq_none]
    exact (hnone l1.length).mp (List.get?_eq_none.mpr (le_refl _))

theorem allocGroupGo_cons_cons (total_qty part_weight : ℚ)
    (line_precision : Nat) (idx r : Nat) (rest : List Nat)
    (items : List InvoiceItem) (acc : ℚ) :
    allocGroupGo total_qty part_weight line_precision (idx :: r :: rest) items acc =
      allocGroupGo total_qty part_weight line_precision (r :: rest)
        (setWeight items idx
          (round_half_up (part_weight *
            ((match items.get? idx with
              | some it => it.qty
              | none => 0) / total_qty)) line_precision))
        (acc + round_half_up (part_weight *
            ((match items.get? idx with
              | some it => it.qty
              | none => 0) / total_qty)) line_precision) := by
  rfl

theorem allocGroupGo_frame (total_qty part_weight : ℚ) (line_precision : Nat) :
    ∀ (indices : List Nat) (items : List InvoiceItem) (acc : ℚ) (j : Nat),
    ((allocGroupGo total_qty part_weight line_precision indices items acc).get?
        j).map eraseWeight = (items.get? j).map eraseWeight := by
  intro indices
  induction indices with
  | nil => intro items acc j; rfl
  | cons idx rest ih =>
    intro items acc j
    cases rest with
    | nil => exact setWeight_frame items idx _ j
    | cons r rest2 =>
      rw [allocGroupGo_cons_cons]
      rw [ih]
      exact setWeight_frame items idx _ j

theorem allocGroupGo_length (total_qty part_weight : ℚ) (line_precision : Nat)
    (indices : List Nat) (items : List InvoiceItem) (acc : ℚ) :
    (allocGroupGo total_qty part_weight line_precision indices items acc).length =
      items.length :=
  frame_length (allocGroupGo_frame total_qty part_weight line_precision indices
    items acc)

theorem allocGroupGo_not_mem (total_qty part_weight : ℚ) (line_precision : Nat) :
    ∀ (indices : List Nat) (items : List InvoiceItem) (acc : ℚ) (j : Nat),
    j ∉ indices →
    (allocGroupGo total_qty part_weight line_precision indices items acc).get? j =
      items.get? j := by
  intro indices
  induction indices with
  | nil => intro items acc j _; rfl
  | cons idx rest ih =>
    intro items acc j hj
    have hj1 : j ≠ idx := fun h => hj (h ▸ List.mem_cons_self idx rest)
    have hj2 : j ∉ rest := fun h => hj (List.mem_cons_of_mem idx h)
    cases rest with
    | nil => exact setWeight_get?_ne items idx _ hj1
    | cons r rest2 =>
      rw [allocGroupGo_cons_cons, ih _ _ j hj2]
      exact setWeight_get?_ne items idx _ hj1

theorem allocGroupGo_qty (total_qty part_weight : ℚ) (line_precision : Nat) :
    ∀ (indices : List Nat) (items : List InvoiceItem) (acc : ℚ) (j : Nat)
      (it : InvoiceItem),
    (allocGroupGo total_qty part_weight line_precision indices items acc).get? j =
      some it →
    ∃ it0, items.get? j = some it0 ∧ it.qty = it0.qty := by
  intro indices
  induction indices with
  | nil => intro items acc j it h; exact ⟨it, h, rfl⟩
  | cons idx rest ih =>
    intro items acc j it h
    cases rest with
    | nil => exact setWeight_qty h
    | cons r rest2 =>
      rw [allocGroupGo_cons_cons] at h
      obtain ⟨it1, h1, hq1⟩ := ih _ _ j it h
      obtain ⟨it0, h0, hq0⟩ := setWeight_qty h1
      exact ⟨it0, h0, hq1.trans hq0⟩

theorem allocGroupGo_isSome_mono (total_qty part_weight : ℚ)
    (line_precision : Nat) :
    ∀ (indices : List Nat) (items : List InvoiceItem) (acc : ℚ) (j : Nat)
      (it : InvoiceItem),
    items.get? j = some it → it.allocated_weight.isSome = true →
    ∃ it2,
      (allocGroupGo total_qty part_weight line_precision indices items acc).get?
        j = some it2 ∧ it2.allocated_weight.isSome = true := by
  intro indices
  induction indices with
  | nil => intro items acc j it h hs; exact ⟨it, h, hs⟩
  | cons idx rest ih =>
    intro items acc j it h hs
    cases rest with
    | nil => exact setWeight_isSome h hs
    | cons r rest2 =>
      rw [allocGroupGo_cons_cons]
      obtain ⟨it2, h2, hs2⟩ := @setWeight_isSome items idx
        (round_half_up (part_weight *
          ((match items.get? idx with
            | some it => it.qty
            | none => 0) / total_qty)) line_precision) j it h hs
      exact ih _ _ j it2 h2 hs2

theorem allocGroupGo_isSome (total_qty part_weight : ℚ) (line_precision : Nat) :
    ∀ (indices : List Nat) (items : List InvoiceItem) (acc : ℚ) (j : Nat),
    j ∈ indices → j < items.length →
    ∃ it2,
      (allocGroupGo total_qty part_weight line_precision indices items acc).get?
        j = some it2 ∧ it2.allocated_weight.isSome = true := by
  intro indices
  induction indices with
  | nil => intro items acc j hj _; cases hj
  | cons idx rest ih =>
    intro items acc j hj hlen
    obtain ⟨it0, h0⟩ : ∃ it0, items.get? j = some it0 := by
      cases h : items.get? j with
      | none =>
        rw [List.get?_eq_none] at h
        omega
      | some it0 => exact ⟨it0, rfl⟩
    cases rest with
    | nil =>
      have hj0 : j = idx := by
        cases List.mem_cons.mp hj with
        | inl h => exact h
        | inr h => cases h
      subst hj0
      exact ⟨{ it0 with allocated_weight := some (part_weight - acc) },
        setWeight_get?_self _ h0, rfl⟩
    | cons r rest2 =>
      rw [allocGroupGo_cons_cons]
      cases List.mem_cons.mp hj with
      | inl hj0 =>
        subst hj0
        exact allocGroupGo_isSome_mono total_qty part_weight line_precision
          (r :: rest2) _ _ j _ (setWeight_get?_self _ h0) rfl
      | inr hj0 =>
        refine ih _ _ j hj0 ?_
        rw [setWeight_length]
        exact hlen

theorem setWeight_qty_all {items : List InvoiceItem} {idx : Nat} {w : ℚ}
    (h : ∀ j it, items.get? j = some it → 0 ≤ it.qty) :
    ∀ j it, (setWeight items idx w).get? j = some it → 0 ≤ it.qty := by
  intro j it hj
  obtain ⟨it0, h0, hq⟩ := setWeight_qty hj
  rw [hq]
  exact h j it0 h0

theorem allocGroupGo_nonneg (total_qty part_weight : ℚ) (line_precision : Nat)
    (hpw : 0 ≤ part_weight) (htq : 0 ≤ total_qty) :
    ∀ (indices : List Nat) (items : List InvoiceItem) (acc : ℚ),
    indices.Nodup →
    (∀ j it, items.get? j = some it → 0 ≤ it.qty) →
    ∀ j ∈ indices.dropLast, ∀ it,
      (allocGroupGo total_qty part_weight line_precision indices items
        acc).get? j = some it →
      ∃ w, it.allocated_weight = some w ∧ 0 ≤ w := by
  intro indices
  induction indices with
  | nil => intro items acc _ _ j hj; cases hj
  | cons idx rest ih =>
    intro items acc hnd hqty j hj it hit
    cases rest with
    | nil => cases hj
    | cons r rest2 =>
      have hdl : (idx :: r :: rest2).dropLast = idx :: (r :: rest2).dropLast := rfl
      rw [hdl] at hj
      rw [allocGroupGo_cons_cons] at hit
      have halloc : 0 ≤ round_half_up (part_weight *
          ((match items.get? idx with
            | some it => it.qty
            | none => 0) / total_qty)) line_precision := by
        apply round_half_up_nonneg
        apply mul_nonneg hpw
        apply div_nonneg _ htq
        cases h0 : items.get? idx with
        | none => exact le_refl 0
        | some it0 => exact hqty idx it0 h0
      cases List.mem_cons.mp hj with
      | inl hj0 =>
        subst hj0
        have hnotmem : j ∉ r :: rest2 := (List.nodup_cons.mp hnd).1
        rw [allocGroupGo_not_mem _ _ _ _ _ _ j hnotmem] at hit
        cases h0 : items.get? j with
        | none =>
          rw [setWeight_oob h0, h0] at hit
          cases hit
        | some it0 =>
          rw [setWeight_get?_self _ h0] at hit
          cases hit
          exact ⟨_, rfl, halloc⟩
      | inr hj0 =>
        exact ih _ _ (List.nodup_cons.mp hnd).2 (setWeight_qty_all hqty)
          j hj0 it hit

/- ------------------------------------------------------------------ -/
/- allocLoop lemmas                                                    -/
/- ------------------------------------------------------------------ -/

theorem find?_none_any_false {α : Type} {p : α → Bool} {l : List α}
    (h : l.find? p = none) : l.any p = false := by
  rw [List.find?_eq_none] at h
  by_contra hc
  rw [Bool.not_eq_false, List.any_eq_true] at hc
  obtain ⟨x, hx, hpx⟩ := hc
  exact h x hx hpx

theorem find?_some_any_true {α : Type} {p : α → Bool} {l : List α} {a : α}
    (h : l.find? p = some a) : l.any p = true :=
  List.any_eq_true.mpr ⟨a, List.mem_of_find?_eq_some h, List.find?_some h⟩

theorem allocLoop_cons_nofind {ibp : List (String × List Nat)}
    {line_precision : Nat} {part : String} {part_weight : ℚ}
    {rest : List (String × ℚ)} {items : List InvoiceItem} {err : List String}
    (h : ibp.find? (fun kv => kv.1 = part) = none) :
    allocLoop ibp line_precision ((part, part_weight) :: rest) items err =
      allocLoop ibp line_precision rest items (err ++ [part]) := by
  conv_lhs => rw [allocLoop]
  rw [h]

theorem allocLoop_cons_find {ibp : List (String × List Nat)}
    {line_precision : Nat} {part : String} {part_weight : ℚ}
    {rest : List (String × ℚ)} {items : List InvoiceItem} {err : List String}
    {g : String × List Nat}
    (h : ibp.find? (fun kv => kv.1 = part) = some g) :
    allocLoop ibp line_precision ((part, part_weight) :: rest) items err =
      if 2 ≤ g.2.length ∧
          (((g.2.filterMap (fun i => items.get? i)).map
            (fun it => it.qty)).sum = 0)
      then .error (.qtyDivisionByZero part)
      else allocLoop ibp line_precision rest
        (allocGroupGo
          ((g.2.filterMap (fun i => items.get? i)).map (fun it => it.qty)).sum
          part_weight line_precision g.2 items 0) err := by
  conv_lhs => rw [allocLoop]
  rw [h]

theorem allocLoop_frame (ibp : List (String × List Nat))
    (line_precision : Nat) :
    ∀ (rw0 : List (String × ℚ)) (items : List InvoiceItem) (err : List String)
      (items2 : List InvoiceItem) (err2 : List String),
    allocLoop ibp line_precision rw0 items err = .ok (items2, err2) →
    ∀ j, (items2.get? j).map eraseWeight = (items.get? j).map eraseWeight := by
  intro rw0
  induction rw0 with
  | nil =>
    intro items err items2 err2 h j
    cases h
    rfl
  | cons kv rest ih =>
    intro items err items2 err2 h j
    obtain ⟨part, part_weight⟩ := kv
    cases hfind : ibp.find? (fun kv => kv.1 = part) with
    | none =>
      rw [allocLoop_cons_nofind hfind] at h
      exact ih _ _ _ _ h j
    | some g =>
      rw [allocLoop_cons_find hfind] at h
      split at h
      · cases h
      · have := ih _ _ _ _ h j
        rw [this]
        exact allocGroupGo_frame _ _ _ _ _ _ j

theorem allocLoop_err043 (ibp : List (String × List Nat))
    (line_precision : Nat) :
    ∀ (rw0 : List (String × ℚ)) (items : List InvoiceItem) (err : List String)
      (items2 : List InvoiceItem) (err2 : List String),
    allocLoop ibp line_precision rw0 items err = .ok (items2, err2) →
    err2 = err ++ (rw0.map (fun kv => kv.1)).filter
      (fun k => !(ibp.any (fun kv => kv.1 = k))) := by
  intro rw0
  induction rw0 with
  | nil =>
    intro items err items2 err2 h
    cases h
    simp
  | cons kv rest ih =>
    intro items err items2 err2 h
    obtain ⟨part, part_weight⟩ := kv
    cases hfind : ibp.find? (fun kv => kv.1 = part) with
    | none =>
      rw [allocLoop_cons_nofind hfind] at h
      have := ih _ _ _ _ h
      rw [this]
      have hany := find?_none_any_false hfind
      simp [List.filter_cons, hany]
    | some g =>
      rw [allocLoop_cons_find hfind] at h
      split at h
      · cases h
      · have := ih _ _ _ _ h
        rw [this]
        have hany := find?_some_any_true hfind
        simp [List.filter_cons, hany]

theorem allocLoop_isSome_mono (ibp : List (String × List Nat))
    (line_precision : Nat) :
    ∀ (rw0 : List (String × ℚ)) (items : List InvoiceItem) (err : List String)
      (items2 : List InvoiceItem) (err2 : List String),
    allocLoop ibp line_precision rw0 items err = .ok (items2, err2) →
    ∀ j it, items.get? j = some it → it.allocated_weight.isSome = true →
    ∃ it2, items2.get? j = some it2 ∧ it2.allocated_weight.isSome = true := by
  intro rw0
  induction rw0 with
  | nil =>
    intro items err items2 err2 h j it hj hs
    cases h
    exact ⟨it, hj, hs⟩
  | cons kv rest ih =>
    intro items err items2 err2 h j it hj hs
    obtain ⟨part, part_weight⟩ := kv
    cases hfind : ibp.find? (fun kv => kv.1 = part) with
    | none =>
      rw [allocLoop_cons_nofind hfind] at h
      exact ih _ _ _ _ h j it hj hs
    | some g =>
      rw [allocLoop_cons_find hfind] at h
      split at h
      · cases h
      · obtain ⟨it1, h1, hs1⟩ := allocGroupGo_isSome_mono
          ((g.2.filterMap (fun i => items.get? i)).map (fun it => it.qty)).sum
          part_weight line_precision g.2 items 0 j it hj hs
        exact ih _ _ _ _ h j it1 h1 hs1

theorem allocLoop_sets (ibp : List (String × List Nat))
    (line_precision : Nat) :
    ∀ (rw0 : List (String × ℚ)) (items : List InvoiceItem) (err : List String)
      (items2 : List InvoiceItem) (err2 : List String),
    allocLoop ibp line_precision rw0 items err = .ok (items2, err2) →
    ∀ part part_weight g, (part, part_weight) ∈ rw0 →
    ibp.find? (fun kv => kv.1 = part) = some g →
    ∀ j ∈ g.2, j < items.length →
    ∃ it2, items2.get? j = some it2 ∧ it2.allocated_weight.isSome = true := by
  intro rw0
  induction rw0 with
  | nil => intro items err items2 err2 _ part part_weight g hmem; cases hmem
  | cons kv rest ih =>
    intro items err items2 err2 h part part_weight g hmem hfindg j hj hlen
    obtain ⟨part0, pw0⟩ := kv
    cases hfind : ibp.find? (fun kv => kv.1 = part0) with
    | none =>
      rw [allocLoop_cons_nofind hfind] at h
      cases List.mem_cons.mp hmem with
      | inl heq =>
        have hp : part = part0 := by cases heq; rfl
        rw [hp, hfind] at hfindg
        cases hfindg
      | inr hmem2 => exact ih _ _ _ _ h part part_weight g hmem2 hfindg j hj hlen
    | some g0 =>
      rw [allocLoop_cons_find hfind] at h
      split at h
      · cases h
      · cases List.mem_cons.mp hmem with
        | inl heq =>
          have hp : part = part0 := by cases heq; rfl
          rw [hp, hfind] at hfindg
          cases hfindg
          obtain ⟨it1, h1, hs1⟩ := allocGroupGo_isSome
            ((g.2.filterMap (fun i => items.get? i)).map (fun it => it.qty)).sum
            pw0 line_precision g.2 items 0 j hj hlen
          exact allocLoop_isSome_mono ibp line_precision rest _ _ _ _ h
            j it1 h1 hs1
        | inr hmem2 =>
          refine ih _ _ _ _ h part part_weight g hmem2 hfindg j hj ?_
          rw [allocGroupGo_length]
          exact hlen

/- ------------------------------------------------------------------ -/
/- invoiceByPart lemmas                                                -/
/- ------------------------------------------------------------------ -/

theorem groupAdd_keys (m : List (String × List Nat)) (k : String) (i : Nat) :
    (groupAdd m k i).map (fun kv => kv.1) =
      if m.any (fun kv => kv.1 = k) then m.map (fun kv => kv.1)
      else m.map (fun kv => kv.1) ++ [k] := by
  unfold groupAdd
  split
  · rw [List.map_map]
    congr 1
    funext kv
    by_cases h : kv.1 = k <;> simp [h]
  · simp

theorem groupAdd_keys_nodup {m : List (String × List Nat)} {k : String}
    {i : Nat} (h : (m.map (fun kv => kv.1)).Nodup) :
    ((groupAdd m k i).map (fun kv => kv.1)).Nodup := by
  rw [groupAdd_keys]
  split
  · exact h
  · rename_i hany
    rw [List.nodup_append]
    refine ⟨h, List.nodup_singleton k, ?_⟩
    intro a ha hk
    rw [List.mem_singleton] at hk
    subst hk
    obtain ⟨kv, hkv, hkeq⟩ := List.mem_map.mp ha
    exact hany (List.any_eq_true.mpr ⟨kv, hkv, by simp [hkeq]⟩)

theorem foldl_groupAdd_keys_nodup :
    ∀ (l : List (Nat × InvoiceItem)) (m : List (String × List Nat)),
    (m.map (fun kv => kv.1)).Nodup →
    ((l.foldl (fun m p => groupAdd m (pyStrip p.2.part_no) p.1) m).map
      (fun kv => kv.1)).Nodup := by
  intro l
  induction l with
  | nil => intro m h; exact h
  | cons p rest ih => intro m h; exact ih _ (groupAdd_keys_nodup h)

theorem invoiceByPart_keys_nodup (items : List InvoiceItem) :
    ((invoiceByPart items).map (fun kv => kv.1)).Nodup :=
  foldl_groupAdd_keys_nodup items.enum [] List.nodup_nil

theorem groupAdd_mem_mono {m : List (String × List Nat)} {k2 : String}
    {i : Nat} {k : String} {j : Nat}
    (h : ∃ g ∈ m, g.1 = k ∧ j ∈ g.2) :
    ∃ g ∈ groupAdd m k2 i, g.1 = k ∧ j ∈ g.2 := by
  obtain ⟨g, hg, hk, hj⟩ := h
  unfold groupAdd
  split
  · refine ⟨if g.1 = k2 then (g.1, g.2 ++ [i]) else g, ?_, ?_⟩
    · exact List.mem_map_of_mem _ hg
    · by_cases hgk : g.1 = k2
      · rw [if_pos hgk]
        exact ⟨hk, List.mem_append_left _ hj⟩
      · rw [if_neg hgk]
        exact ⟨hk, hj⟩
  · exact ⟨g, List.mem_append_left _ hg, hk, hj⟩

theorem groupAdd_mem_self (m : List (String × List Nat)) (k : String)
    (i : Nat) : ∃ g ∈ groupAdd m k i, g.1 = k ∧ i ∈ g.2 := by
  unfold groupAdd
  split
  · rename_i hany
    rw [List.any_eq_true] at hany
    obtain ⟨kv, hkv, hk⟩ := hany
    rw [decide_eq_true_eq] at hk
    refine ⟨(kv.1, kv.2 ++ [i]), ?_, hk,
      List.mem_append_right _ (List.mem_singleton.mpr rfl)⟩
    have himg : (if kv.1 = k then (kv.1, kv.2 ++ [i]) else kv) =
        (kv.1, kv.2 ++ [i]) := by rw [if_pos hk]
    rw [← himg]
    exact List.mem_map_of_mem _ hkv
  · exact ⟨(k, [i]), List.mem_append_right _ (List.mem_singleton.mpr rfl),
      rfl, List.mem_singleton.mpr rfl⟩

theorem foldl_groupAdd_mem :
    ∀ (l : List (Nat × InvoiceItem)) (m : List (String × List Nat))
      (p : Nat × InvoiceItem),
    (p ∈ l ∨ ∃ g ∈ m, g.1 = pyStrip p.2.part_no ∧ p.1 ∈ g.2) →
    ∃ g ∈ l.foldl (fun m p => groupAdd m (pyStrip p.2.part_no) p.1) m,
      g.1 = pyStrip p.2.part_no ∧ p.1 ∈ g.2 := by
  intro l
  induction l with
  | nil =>
    intro m p h
    cases h with
    | inl h => cases h
    | inr h => exact h
  | cons q rest ih =>
    intro m p h
    apply ih
    cases h with
    | inl h =>
      cases List.mem_cons.mp h with
      | inl heq => subst heq; exact Or.inr (groupAdd_mem_self m _ _)
      | inr hmem => exact Or.inl hmem
    | inr h => exact Or.inr (groupAdd_mem_mono h)

theorem invoiceByPart_complete (items : List InvoiceItem) {j : Nat}
    {it : InvoiceItem} (h : items.get? j = some it) :
    ∃ g ∈ invoiceByPart items, g.1 = pyStrip it.part_no ∧ j ∈ g.2 := by
  have hmem : (j, it) ∈ items.enum := by
    rw [List.mem_enum_iff_getElem?]
    rw [List.get?_eq_getElem?] at h
    exact h
  exact foldl_groupAdd_mem items.enum [] (j, it) (Or.inl hmem)

theorem groupAdd_keys_sub {m : List (String × List Nat)} {k2 : String}
    {i : Nat} {k : String}
    (h : ∃ g ∈ groupAdd m k2 i, g.1 = k) :
    k = k2 ∨ ∃ g ∈ m, g.1 = k := by
  obtain ⟨g, hg, hk⟩ := h
  unfold groupAdd at hg
  split at hg
  · obtain ⟨kv, hkv, himg⟩ := List.mem_map.mp hg
    have hkey : g.1 = kv.1 := by
      by_cases h2 : kv.1 = k2
      · rw [← himg, if_pos h2]
      · rw [← himg, if_neg h2]
    right
    exact ⟨kv, hkv, hkey ▸ hk⟩
  · cases List.mem_append.mp hg with
    | inl hm => right; exact ⟨g, hm, hk⟩
    | inr hs =>
      rw [List.mem_singleton] at hs
      subst hs
      left
      exact hk.symm

theorem foldl_groupAdd_keys_sub :
    ∀ (l : List (Nat × InvoiceItem)) (m : List (String × List Nat))
      (k : String),
    (∃ g ∈ l.foldl (fun m p => groupAdd m (pyStrip p.2.part_no) p.1) m,
      g.1 = k) →
    (∃ g ∈ m, g.1 = k) ∨ ∃ p ∈ l, pyStrip p.2.part_no = k := by
  intro l
  induction l with
  | nil => intro m k h; exact Or.inl h
  | cons q rest ih =>
    intro m k h
    cases ih _ k h with
    | inl hg =>
      cases groupAdd_keys_sub hg with
      | inl hk =>
        right
        exact ⟨q, List.mem_cons_self q rest, hk.symm⟩
      | inr hm => exact Or.inl hm
    | inr hp =>
      obtain ⟨p, hp1, hp2⟩ := hp
      right
      exact ⟨p, List.mem_cons_of_mem q hp1, hp2⟩

theorem invoiceByPart_keys_iff (items : List InvoiceItem) (k : String) :
    (∃ g ∈ invoiceByPart items, g.1 = k) ↔
      ∃ it ∈ items, pyStrip it.part_no = k := by
  constructor
  · intro h
    cases foldl_groupAdd_keys_sub items.enum [] k h with
    | inl h2 =>
      obtain ⟨g, hg, _⟩ := h2
      cases hg
    | inr h2 =>
      obtain ⟨p, hp1, hp2⟩ := h2
      rw [List.mem_enum_iff_getElem?] at hp1
      refine ⟨p.2, ?_, hp2⟩
      rw [← List.get?_eq_getElem?] at hp1
      exact List.get?_mem hp1
  · intro h
    obtain ⟨it, hmem, hk⟩ := h
    obtain ⟨n, hn⟩ := List.get_of_mem hmem
    have hget : items.get? n = some it := by
      rw [List.get?_eq_get]
      rw [hn]
    obtain ⟨g, hg, hk2, _⟩ := invoiceByPart_complete items hget
    exact ⟨g, hg, hk ▸ hk2⟩

theorem find?_key_of_mem_nodup {m : List (String × List Nat)}
    (hnd : (m.map (fun kv => kv.1)).Nodup) {g : String × List Nat}
    (hg : g ∈ m) :
    m.find? (fun kv => kv.1 = g.1) = some g := by
  induction m with
  | nil => cases hg
  | cons a t ih =>
    rw [List.map_cons, List.nodup_cons] at hnd
    cases List.mem_cons.mp hg with
    | inl h =>
      subst h
      rw [List.find?_cons_of_pos]
      simp
    | inr h =>
      have hne : a.1 ≠ g.1 := fun he => hnd.1 (he ▸ List.mem_map_of_mem _ h)
      rw [List.find?_cons_of_neg]
      · exact ih hnd.2 h
      · simp [hne]

/- ------------------------------------------------------------------ -/
/- Success inversions                                                  -/
/- ------------------------------------------------------------------ -/

theorem proportional_allocate_ok_inversion
    {rounded_weights : List (String × ℚ)} {invoice_items : List InvoiceItem}
    {p : Nat} {res : List InvoiceItem}
    (h : proportional_allocate rounded_weights invoice_items p = .ok res) :
    ∃ err2, allocLoop (invoiceByPart invoice_items) (p + 1) rounded_weights
        invoice_items [] = .ok (res, err2) ∧
      ((invoiceByPart invoice_items).map (fun kv => kv.1)).filter
        (fun k => !(rounded_weights.any (fun kv => kv.1 = k))) = [] ∧
      err2 = [] := by
  unfold proportional_allocate at h
  obtain ⟨r, h1, h2⟩ := except_bind_ok h
  simp only at h2
  split at h2
  · cases h2
  · split at h2
    · cases h2
    · rename_i hc1 hc2
      rw [not_not] at hc1 hc2
      injection h2 with h3
      refine ⟨r.2, ?_, hc1, hc2⟩
      rw [← h3]
      rw [← h1]

theorem allocate_weights_ok_inversion {invoice_items : List InvoiceItem}
    {packing_items : List PackingItem} {packing_totals : PackingTotals}
    {res : List InvoiceItem}
    (h : allocate_weights invoice_items packing_items packing_totals =
      .ok res) :
    ∃ agg p rw0, aggregate_packing packing_items = .ok agg ∧
      determine_precision packing_totals.total_nw
        packing_totals.total_nw_precision agg.1 = .ok p ∧
      round_and_adjust agg.1 p packing_totals.total_nw = .ok rw0 ∧
      proportional_allocate rw0 invoice_items p = .ok res := by
  unfold allocate_weights at h
  obtain ⟨items, h1, h2⟩ := except_bind_ok h
  obtain ⟨u, h3, h4⟩ := except_bind_ok h2
  have hres : items = res := by simpa [Pure.pure, Except.pure] using h4
  subst hres
  unfold allocateNoFinal at h1
  obtain ⟨agg, ha, hb⟩ := except_bind_ok h1
  obtain ⟨u2, hc, hd⟩ := except_bind_ok hb
  obtain ⟨p, he, hf⟩ := except_bind_ok hd
  obtain ⟨rw0, hg, hh⟩ := except_bind_ok hf
  exact ⟨agg, p, rw0, ha, he, hg, hh⟩

/- ------------------------------------------------------------------ -/
/- C6: allocated_weight lifecycle                                      -/
/- ------------------------------------------------------------------ -/

/-- C6: every extracted invoice line item is constructed with
    allocated_weight absent (None), and whenever allocate_weights returns
    successfully every item of the returned list has allocated_weight
    present, set by the allocator. -/
theorem allocated_weight_lifecycle :
    (∀ part_no po_no (qty price amount : ℚ) currency coo cod brand brand_type
        model inv_no serial,
      (mkExtractedInvoiceItem part_no po_no qty price amount currency coo cod
        brand brand_type model inv_no serial).allocated_weight = none) ∧
    (∀ invoice_items packing_items packing_totals result,
      allocate_weights invoice_items packing_items packing_totals =
        .ok result →
      ∀ it ∈ result, it.allocated_weight.isSome = true) := by
  constructor
  · intro _ _ _ _ _ _ _ _ _ _ _ _ _
    rfl
  · intro invoice_items packing_items packing_totals result h it hmem
    obtain ⟨agg, p, rw0, ha, hp, hr, hprop⟩ := allocate_weights_ok_inversion h
    obtain ⟨err2, hloop, h040, herr⟩ := proportional_allocate_ok_inversion hprop
    obtain ⟨n, hn⟩ := List.get_of_mem hmem
    have hget : result.get? n = some it := by
      rw [List.get?_eq_get]
      rw [hn]
    have hframe := allocLoop_frame _ _ _ _ _ _ _ hloop n
    cases h0 : invoice_items.get? n with
    | none =>
      rw [h0, hget] at hframe
      cases hframe
    | some it0 =>
      obtain ⟨g, hg, hkey, hjg⟩ := invoiceByPart_complete invoice_items h0
      have hany : rw0.any (fun kv => kv.1 = g.1) = true := by
        by_contra hc
        rw [Bool.not_eq_true] at hc
        have hmemf : g.1 ∈ ((invoiceByPart invoice_items).map
            (fun kv => kv.1)).filter
            (fun k => !(rw0.any (fun kv => kv.1 = k))) := by
          rw [List.mem_filter]
          exact ⟨List.mem_map_of_mem _ hg, by rw [hc]; rfl⟩
        rw [h040] at hmemf
        cases hmemf
      obtain ⟨kv, hkv, hkveq⟩ := List.any_eq_true.mp hany
      rw [decide_eq_true_eq] at hkveq
      have hfind : (invoiceByPart invoice_items).find?
          (fun kv2 => kv2.1 = kv.1) = some g := by
        have hf := find?_key_of_mem_nodup
          (invoiceByPart_keys_nodup invoice_items) hg
        rw [hkveq]
        exact hf
      have hlen : n < invoice_items.length := by
        rw [List.get?_eq_getElem?] at h0
        exact (List.getElem?_eq_some.mp h0).1
      obtain ⟨it2, h2, hs2⟩ := allocLoop_sets _ _ _ _ _ _ _ hloop kv.1 kv.2 g
        (by rw [Prod.mk.eta]; exact hkv) hfind n hjg hlen
      rw [hget] at h2
      cases h2
      exact hs2

unseal Rat.add Rat.mul Rat.inv Rat.sub in
theorem allocated_weight_lifecycle_witness :
    ({ cItemB with allocated_weight := some (0:ℚ) }).allocated_weight.isSome =
      true :=
  (allocated_weight_lifecycle).2 [cItemA, cItemB] [cPackA, cPackB] cTotals
    [{ cItemA with allocated_weight := some (1/10) },
     { cItemB with allocated_weight := some 0 }] (by rfl)
    { cItemB with allocated_weight := some (0:ℚ) }
    (List.mem_cons_of_mem _ (List.mem_cons_self _ _))

/- ------------------------------------------------------------------ -/
/- C10: frame property of allocate_weights                             -/
/- ------------------------------------------------------------------ -/

/-- C10: allocate_weights modifies only the allocated_weight field: on
    success the returned list has the same length as the input and at
    every position the returned item agrees with the input item on every
    field other than allocated_weight (their eraseWeight projections,
    which keep part_no, po_no, qty, price, amount, currency, coo, cod,
    brand, brand_type, model, inv_no and serial, coincide). -/
theorem allocate_weights_frame_only (invoice_items : List InvoiceItem)
    (packing_items : List PackingItem) (packing_totals : PackingTotals)
    (result : List InvoiceItem) :
    allocate_weights invoice_items packing_items packing_totals =
      .ok result →
    result.length = invoice_items.length ∧
    ∀ j, (result.get? j).map eraseWeight =
      (invoice_items.get? j).map eraseWeight := by
  intro h
  obtain ⟨agg, p, rw0, ha, hp, hr, hprop⟩ := allocate_weights_ok_inversion h
  obtain ⟨err2, hloop, h040, herr⟩ := proportional_allocate_ok_inversion hprop
  have hframe := allocLoop_frame _ _ _ _ _ _ _ hloop
  exact ⟨frame_length hframe, hframe⟩

unseal Rat.add Rat.mul Rat.inv Rat.sub in
theorem allocate_weights_frame_only_witness :
    ([{ cItemA with allocated_weight := some (1/10) },
      { cItemB with allocated_weight := some 0 }] : List InvoiceItem).length =
      ([cItemA, cItemB] : List InvoiceItem).length :=
  (allocate_weights_frame_only [cItemA, cItemB] [cPackA, cPackB] cTotals
    [{ cItemA with allocated_weight := some (1/10) },
     { cItemB with allocated_weight := some 0 }] (by rfl)).1

/- ------------------------------------------------------------------ -/
/- C5: collect-then-report of unmatched parts                          -/
/- ------------------------------------------------------------------ -/

/-- C5: after the proportional-allocation loop, the invoice part numbers
    with no packing entry are collected and raised first, in one single
    InvoicePartsUnmatched (ERR_040) failure; every entry of that error is
    an invoice part number absent from packing, so a packing-only part
    never appears there; the separate PackingPartsUnmatched (ERR_043)
    failure, raised only when ERR_040 is empty, carries exactly the
    packing part numbers with no matching invoice line. -/
theorem proportional_allocate_collect_report
    (rounded_weights : List (String × ℚ)) (invoice_items : List InvoiceItem)
    (p : Nat) :
    (∀ k, (∃ g ∈ invoiceByPart invoice_items, g.1 = k) ↔
      ∃ it ∈ invoice_items, pyStrip it.part_no = k) ∧
    (∀ items2 err2,
      allocLoop (invoiceByPart invoice_items) (p + 1) rounded_weights
        invoice_items [] = .ok (items2, err2) →
      (err2 = (rounded_weights.map (fun kv => kv.1)).filter
        (fun k => !((invoiceByPart invoice_items).any (fun kv => kv.1 = k)))) ∧
      (((invoiceByPart invoice_items).map (fun kv => kv.1)).filter
          (fun k => !(rounded_weights.any (fun kv => kv.1 = k))) ≠ [] →
        proportional_allocate rounded_weights invoice_items p =
          .error (.invoicePartsUnmatched
            (((invoiceByPart invoice_items).map (fun kv => kv.1)).filter
              (fun k => !(rounded_weights.any (fun kv => kv.1 = k)))))) ∧
      (((invoiceByPart invoice_items).map (fun kv => kv.1)).filter
          (fun k => !(rounded_weights.any (fun kv => kv.1 = k))) = [] →
        err2 ≠ [] →
        proportional_allocate rounded_weights invoice_items p =
          .error (.packingPartsUnmatched err2)) ∧
      (∀ k ∈ ((invoiceByPart invoice_items).map (fun kv => kv.1)).filter
          (fun k => !(rounded_weights.any (fun kv => kv.1 = k))),
        (∃ it ∈ invoice_items, pyStrip it.part_no = k) ∧
        ¬ ∃ kv ∈ rounded_weights, kv.1 = k) ∧
      (∀ k ∈ err2, (∃ kv ∈ rounded_weights, kv.1 = k) ∧
        ¬ ∃ it ∈ invoice_items, pyStrip it.part_no = k)) := by
  refine ⟨fun k => invoiceByPart_keys_iff invoice_items k, ?_⟩
  intro items2 err2 hloop
  have herr2 := allocLoop_err043 _ _ _ _ _ _ _ hloop
  rw [List.nil_append] at herr2
  refine ⟨herr2, ?_, ?_, ?_, ?_⟩
  · intro h040ne
    unfold proportional_allocate
    refine except_bind_error hloop ?_
    simp only
    rw [if_pos h040ne]
  · intro h040 herr2ne
    unfold proportional_allocate
    refine except_bind_error hloop ?_
    simp only
    rw [if_neg (not_not.mpr h040), if_pos herr2ne]
  · intro k hk
    rw [List.mem_filter] at hk
    obtain ⟨hk1, hk2⟩ := hk
    constructor
    · obtain ⟨g, hg, hgk⟩ := List.mem_map.mp hk1
      exact (invoiceByPart_keys_iff invoice_items k).mp ⟨g, hg, hgk⟩
    · intro hex
      obtain ⟨kv, hkv, hkveq⟩ := hex
      have : rounded_weights.any (fun kv => kv.1 = k) = true :=
        List.any_eq_true.mpr ⟨kv, hkv, by rw [decide_eq_true_eq]; exact hkveq⟩
      rw [Bool.not_eq_true'] at hk2
      rw [this] at hk2
      cases hk2
  · intro k hk
    rw [herr2, List.mem_filter] at hk
    obtain ⟨hk1, hk2⟩ := hk
    constructor
    · obtain ⟨kv, hkv, hkveq⟩ := List.mem_map.mp hk1
      exact ⟨kv, hkv, hkveq⟩
    · intro hex
      obtain ⟨it, hit, hiteq⟩ := hex
      have hkeys : ∃ g ∈ invoiceByPart invoice_items, g.1 = k :=
        (invoiceByPart_keys_iff invoice_items k).mpr ⟨it, hit, hiteq⟩
      obtain ⟨g, hg, hgk⟩ := hkeys
      have : (invoiceByPart invoice_items).any (fun kv => kv.1 = k) = true :=
        List.any_eq_true.mpr ⟨g, hg, by rw [decide_eq_true_eq]; exact hgk⟩
      rw [Bool.not_eq_true'] at hk2
      rw [this] at hk2
      cases hk2

theorem proportional_allocate_collect_report_witness :
    proportional_allocate [("Y", 1)] [{ cItemA with part_no := "X" }] 2 =
      .error (.invoicePartsUnmatched ["X"]) := by
  have h := ((proportional_allocate_collect_report [("Y", 1)]
    [{ cItemA with part_no := "X" }] 2).2
    [{ cItemA with part_no := "X" }] ["Y"] (by rfl)).2.1 (by decide)
  exact h

/- ------------------------------------------------------------------ -/
/- C4: positivity of allocated weights (corrected)                     -/
/- ------------------------------------------------------------------ -/

unseal Rat.add Rat.mul Rat.inv Rat.sub in
/-- C4 counterexample: allocate_weights succeeds on this input and the
    returned line item for part B carries allocated_weight exactly 0, so
    a successful run can return a zero (not strictly positive) allocated
    weight. -/
theorem allocate_weights_zero_weight_run :
    allocate_weights [cItemA, cItemB] [cPackA, cPackB] cTotals =
      .ok [{ cItemA with allocated_weight := some (1/10) },
           { cItemB with allocated_weight := some 0 }] := by
  rfl

/-- C4 amended: the nonnegativity the allocator does guarantee: the
    part-level weights produced by round_and_adjust on success are all
    nonnegative (the NegativeRemainder guard protects the last part), and
    in the proportional allocation every line except the last of its part
    group receives a nonnegative weight whenever the part weight, the
    group quantity sum and all item quantities are nonnegative; the last
    line of a group absorbs a remainder that can be zero (or negative), so
    strict positivity of every returned allocated weight does not hold. -/
theorem allocation_nonneg_amended :
    (∀ agg_nw optimal_precision total_nw rounded,
      round_and_adjust agg_nw optimal_precision total_nw = .ok rounded →
      (∀ kv ∈ agg_nw, (0:ℚ) ≤ kv.2) →
      ∀ kv ∈ rounded, (0:ℚ) ≤ kv.2) ∧
    (∀ (total_qty part_weight : ℚ) (line_precision : Nat)
        (indices : List Nat) (items : List InvoiceItem) (acc : ℚ),
      0 ≤ part_weight → 0 ≤ total_qty →
      (∀ j it, items.get? j = some it → 0 ≤ it.qty) →
      indices.Nodup →
      ∀ j ∈ indices.dropLast, ∀ it,
        (allocGroupGo total_qty part_weight line_precision indices items
          acc).get? j = some it →
        ∃ w, it.allocated_weight = some w ∧ 0 ≤ w) := by
  constructor
  · intro agg_nw optimal_precision total_nw rounded hok hnn kv hkv
    unfold round_and_adjust at hok
    simp only at hok
    split at hok
    · cases hok
      obtain ⟨kv0, hkv0, himg⟩ := List.mem_map.mp hkv
      rw [← himg]
      exact round_half_up_nonneg _ (hnn kv0 hkv0)
    · rename_i lastkv hlast
      split at hok
      · cases hok
      · rename_i hrem
        cases hok
        obtain ⟨kv0, hkv0, himg⟩ := List.mem_map.mp hkv
        obtain ⟨kv1, hkv1, himg1⟩ := List.mem_map.mp hkv0
        by_cases hkey : kv0.1 = lastkv.1
        · rw [if_pos hkey] at himg
          rw [← himg]
          rw [not_lt] at hrem
          exact hrem
        · rw [if_neg hkey] at himg
          rw [← himg, ← himg1]
          exact round_half_up_nonneg _ (hnn kv1 hkv1)
  · intro total_qty part_weight line_precision indices items acc hpw htq
      hqty hnd j hj it hit
    exact allocGroupGo_nonneg total_qty part_weight line_precision hpw htq
      indices items acc hnd hqty j hj it hit

unseal Rat.add Rat.mul Rat.inv Rat.sub in
theorem allocation_nonneg_amended_witness :
    ∀ kv ∈ ([("A", 1/10), ("B", 0)] : List (String × ℚ)), (0:ℚ) ≤ kv.2 :=
  (allocation_nonneg_amended).1 [("A", 1/10), ("B", 5/100)] 3 (1/10)
    [("A", 1/10), ("B", 0)] (by rfl) (by decide)

/- ------------------------------------------------------------------ -/
/- C7: header row detection                                            -/
/- ------------------------------------------------------------------ -/

theorem rowTier_le_two (cells : List String) : rowTier cells ≤ 2 := by
  unfold rowTier
  split
  · omega
  · split <;> omega

theorem headerScanStep_skip {sheet : Sheet} {threshold : Nat}
    {st : Nat × Option Nat} {row : Nat}
    (h : (headerRowCells sheet row).length < threshold) :
    headerScanStep sheet threshold st row = st := by
  simp only [headerScanStep]
  rw [if_pos h]

theorem headerScanStep_qual {sheet : Sheet} {threshold : Nat}
    {st : Nat × Option Nat} {row : Nat}
    (h : ¬ (headerRowCells sheet row).length < threshold) :
    headerScanStep sheet threshold st row =
      if rowTier (headerRowCells sheet row) < st.1 ∨
          (rowTier (headerRowCells sheet row) = st.1 ∧ st.2 = none)
      then (rowTier (headerRowCells sheet row), some row) else st := by
  simp only [headerScanStep]
  rw [if_neg h]

theorem headerScan_none_iff (sheet : Sheet) (threshold : Nat) :
    ∀ (rows : List Nat) (st : Nat × Option Nat),
    (st.2 = none → st.1 = 3) →
    ((rows.foldl (headerScanStep sheet threshold) st).2 = none ↔
      st.2 = none ∧
        ∀ row ∈ rows, (headerRowCells sheet row).length < threshold) := by
  intro rows
  induction rows with
  | nil =>
    intro st hinv
    simp
  | cons row rest ih =>
    intro st hinv
    rw [List.foldl_cons]
    by_cases hq : (headerRowCells sheet row).length < threshold
    · rw [headerScanStep_skip hq, ih st hinv]
      constructor
      · intro h
        refine ⟨h.1, ?_⟩
        intro r hr
        cases List.mem_cons.mp hr with
        | inl he => rw [he]; exact hq
        | inr hm => exact h.2 r hm
      · intro h
        exact ⟨h.1, fun r hr => h.2 r (List.mem_cons_of_mem _ hr)⟩
    · rw [headerScanStep_qual hq]
      by_cases hc : rowTier (headerRowCells sheet row) < st.1 ∨
          (rowTier (headerRowCells sheet row) = st.1 ∧ st.2 = none)
      · rw [if_pos hc, ih _ (by intro h; cases h)]
        constructor
        · intro h
          cases h.1
        · intro h
          exact absurd (h.2 row (List.mem_cons_self _ _)) hq
      · rw [if_neg hc, ih st hinv]
        constructor
        · intro h
          exfalso
          have h3 := hinv h.1
          have h4 := rowTier_le_two (headerRowCells sheet row)
          exact hc (Or.inl (by omega))
        · intro h
          exact absurd (h.2 row (List.mem_cons_self _ _)) hq

theorem headerScan_best (sheet : Sheet) (threshold : Nat) :
    ∀ (rows : List Nat) (st : Nat × Option Nat),
    (st.2 = none → st.1 = 3) →
    (∀ r', st.2 = some r' → ∀ row ∈ rows, r' < row) →
    rows.Pairwise (· < ·) →
    (rows.foldl (headerScanStep sheet threshold) st).1 ≤ st.1 ∧
    (∀ q, (rows.foldl (headerScanStep sheet threshold) st).2 = some q →
      ((st.2 = some q ∧
          (rows.foldl (headerScanStep sheet threshold) st).1 = st.1) ∨
        (q ∈ rows ∧ threshold ≤ (headerRowCells sheet q).length ∧
          (rows.foldl (headerScanStep sheet threshold) st).1 =
            rowTier (headerRowCells sheet q) ∧
          (rows.foldl (headerScanStep sheet threshold) st).1 < st.1)) ∧
      (∀ row ∈ rows, threshold ≤ (headerRowCells sheet row).length →
        (rows.foldl (headerScanStep sheet threshold) st).1 ≤
          rowTier (headerRowCells sheet row) ∧
        (rowTier (headerRowCells sheet row) =
            (rows.foldl (headerScanStep sheet threshold) st).1 →
          q ≤ row))) := by
  intro rows
  induction rows with
  | nil =>
    intro st _ _ _
    refine ⟨le_refl _, ?_⟩
    intro q hq
    exact ⟨Or.inl ⟨hq, rfl⟩, fun row hr => absurd hr (List.not_mem_nil row)⟩
  | cons row rest ih =>
    intro st hinv1 hinv3 hpw
    rw [List.foldl_cons]
    have hpwrest := (List.pairwise_cons.mp hpw).2
    have hrowlt := (List.pairwise_cons.mp hpw).1
    by_cases hq : (headerRowCells sheet row).length < threshold
    · rw [headerScanStep_skip hq]
      obtain ⟨c1, c2⟩ := ih st hinv1
        (fun r' hr' row2 hrow2 => hinv3 r' hr' row2 (List.mem_cons_of_mem _ hrow2))
        hpwrest
      refine ⟨c1, ?_⟩
      intro q hfin
      obtain ⟨cprov, cord⟩ := c2 q hfin
      refine ⟨?_, ?_⟩
      · cases cprov with
        | inl h => exact Or.inl h
        | inr h => exact Or.inr ⟨List.mem_cons_of_mem _ h.1, h.2⟩
      · intro row2 hrow2 hqual2
        cases List.mem_cons.mp hrow2 with
        | inl he => rw [he] at hqual2; omega
        | inr hm => exact cord row2 hm hqual2
    · rw [headerScanStep_qual hq]
      by_cases hc : rowTier (headerRowCells sheet row) < st.1 ∨
          (rowTier (headerRowCells sheet row) = st.1 ∧ st.2 = none)
      · rw [if_pos hc]
        have hstrict : rowTier (headerRowCells sheet row) < st.1 := by
          cases hc with
          | inl h => exact h
          | inr h =>
            have := hinv1 h.2
            have := rowTier_le_two (headerRowCells sheet row)
            omega
        obtain ⟨c1, c2⟩ := ih (rowTier (headerRowCells sheet row), some row)
          (by intro h; cases h)
          (by
            intro r' hr' row2 hrow2
            have : r' = row := by
              injection hr' with h
              exact h.symm
            rw [this]
            exact hrowlt row2 hrow2)
          hpwrest
      -- c1 : res.1 ≤ tier row
        refine ⟨by omega, ?_⟩
        intro q hfin
        obtain ⟨cprov, cord⟩ := c2 q hfin
        refine ⟨?_, ?_⟩
        · cases cprov with
          | inl h =>
            refine Or.inr ⟨?_, ?_, ?_, ?_⟩
            · have : q = row := by
                injection h.1 with h2
                exact h2.symm
              rw [this]
              exact List.mem_cons_self _ _
            · have : q = row := by
                injection h.1 with h2
                exact h2.symm
              rw [this]
              omega
            · have : q = row := by
                injection h.1 with h2
                exact h2.symm
              rw [this, h.2]
            · omega
          | inr h =>
            exact Or.inr ⟨List.mem_cons_of_mem _ h.1, h.2.1, h.2.2.1, by omega⟩
        · intro row2 hrow2 hqual2
          cases List.mem_cons.mp hrow2 with
          | inl he =>
            subst he
            refine ⟨by omega, ?_⟩
            intro heq
            cases cprov with
            | inl h =>
              have : q = row2 := by
                injection h.1 with h2
                exact h2.symm
              omega
            | inr h => omega
          | inr hm => exact cord row2 hm hqual2
      · rw [if_neg hc]
        push_neg at hc
        have hge : st.1 ≤ rowTier (headerRowCells sheet row) := by omega
        obtain ⟨c1, c2⟩ := ih st hinv1
          (fun r' hr' row2 hrow2 => hinv3 r' hr' row2 (List.mem_cons_of_mem _ hrow2))
          hpwrest
        refine ⟨c1, ?_⟩
        intro q hfin
        obtain ⟨cprov, cord⟩ := c2 q hfin
        refine ⟨?_, ?_⟩
        · cases cprov with
          | inl h => exact Or.inl h
          | inr h => exact Or.inr ⟨List.mem_cons_of_mem _ h.1, h.2⟩
        · intro row2 hrow2 hqual2
          cases List.mem_cons.mp hrow2 with
          | inl he =>
            subst he
            refine ⟨by omega, ?_⟩
            intro heq
            cases cprov with
            | inl h =>
              have hsome : st.2 = some q := h.1
              have := hinv3 q hsome row2 (List.mem_cons_self _ _)
              omega
            | inr h => omega
          | inr hm => exact cord row2 hm hqual2

/-- C7: detect_header_row scans rows 7-30; it fails with HeaderNotFound
    exactly when no row in the window reaches the sheet-type minimum
    non-empty-cell threshold, and a returned row is a qualifying row of
    minimal tier (the rowTier classification: tier 0 for keyword rows
    with fewer than 2 numeric cells, tier 2 for metadata or 3-or-more
    numeric cells, tier 1 otherwise) that is topmost among qualifying
    rows of the same tier — so a later tier-0 row beats an earlier
    tier-1 row. -/
theorem detect_header_row_spec (sheet : Sheet) (sheet_type : String)
    (config : HeaderConfig) :
    (detect_header_row sheet sheet_type config = .error .headerNotFound ↔
      ∀ row ∈ List.range' 7 24, (headerRowCells sheet row).length <
        (if sheet_type = "invoice" then config.invoice_min_headers
         else config.packing_min_headers)) ∧
    (∀ r, detect_header_row sheet sheet_type config = .ok r →
      r ∈ List.range' 7 24 ∧
      (if sheet_type = "invoice" then config.invoice_min_headers
       else config.packing_min_headers) ≤ (headerRowCells sheet r).length ∧
      ∀ row ∈ List.range' 7 24,
        (if sheet_type = "invoice" then config.invoice_min_headers
         else config.packing_min_headers) ≤
            (headerRowCells sheet row).length →
        rowTier (headerRowCells sheet r) ≤
          rowTier (headerRowCells sheet row) ∧
        (rowTier (headerRowCells sheet row) =
            rowTier (headerRowCells sheet r) → r ≤ row)) := by
  constructor
  · constructor
    · intro h
      unfold detect_header_row at h
      simp only at h
      cases hfin : ((List.range' 7 24).foldl (headerScanStep sheet
          (if sheet_type = "invoice" then config.invoice_min_headers
           else config.packing_min_headers)) (3, none)).2 with
      | none =>
        exact ((headerScan_none_iff sheet _ (List.range' 7 24) (3, none)
          (fun _ => rfl)).mp hfin).2
      | some r =>
        rw [hfin] at h
        cases h
    · intro hall
      unfold detect_header_row
      simp only
      rw [(headerScan_none_iff sheet _ (List.range' 7 24) (3, none)
        (fun _ => rfl)).mpr ⟨rfl, hall⟩]
  · intro r h
    unfold detect_header_row at h
    simp only at h
    cases hfin : ((List.range' 7 24).foldl (headerScanStep sheet
        (if sheet_type = "invoice" then config.invoice_min_headers
         else config.packing_min_headers)) (3, none)).2 with
    | none =>
      rw [hfin] at h
      cases h
    | some q =>
      rw [hfin] at h
      have hqr : q = r := by
        injection h
      subst hqr
      obtain ⟨c1, c2⟩ := headerScan_best sheet
        (if sheet_type = "invoice" then config.invoice_min_headers
         else config.packing_min_headers) (List.range' 7 24) (3, none)
        (fun _ => rfl) (by intro r' hr'; cases hr') (by decide)
      obtain ⟨cprov, cord⟩ := c2 q hfin
      cases cprov with
      | inl hl => cases hl.1
      | inr hr2 =>
        refine ⟨hr2.1, hr2.2.1, ?_⟩
        intro row hrow hqual
        obtain ⟨o1, o2⟩ := cord row hrow hqual
        rw [← hr2.2.2.1]
        exact ⟨o1, o2⟩

theorem detect_header_row_spec_witness :
    9 ∈ List.range' 7 24 ∧
    (if "invoice" = "invoice" then (7:Nat) else 4) ≤
      (headerRowCells wHeaderSheet 9).length ∧
    ∀ row ∈ List.range' 7 24,
      (if "invoice" = "invoice" then (7:Nat) else 4) ≤
        (headerRowCells wHeaderSheet row).length →
      rowTier (headerRowCells wHeaderSheet 9) ≤
        rowTier (headerRowCells wHeaderSheet row) ∧
      (rowTier (headerRowCells wHeaderSheet row) =
        rowTier (headerRowCells wHeaderSheet 9) → 9 ≤ row) :=
  (detect_header_row_spec wHeaderSheet "invoice" ⟨7, 4⟩).2 9 (by rfl)

end AutoConvert
